import Mathlib

/-! ## forkproxy (lxd/main_forkproxy.go): address parsing, port mapping, handoff, teardown, relays

A shallow embedding of the Go code of `main_forkproxy.go`.

* Go `string` values are modelled as `List Char` (`Str`).  Every separator the program
  splits on (`:`, `,`, `-`) is a single ASCII character, so splitting the character
  sequence agrees with splitting the UTF-8 byte sequence.
* Go `int64` values are modelled as `Int`, wrapped with `wrap64` wherever the source does
  arithmetic on them.
* A Go function returning `(value, error)` is modelled as a `Result`: a value, a returned
  error, or a run-time panic (index out of range, nil dereference).
-/

namespace Forkproxy

/-- Go `string`, as its sequence of characters. -/
abbrev Str := List Char

/-- Errors that the modelled code can return. -/
inductive GoError where
  | invalidPortRange (r : Str)
  | numSyntax (num : Str)
  | numRange (num : Str)
  | invalidPortMapping
  | listenFailed (addr : Str)
  | removeFailed
  | sendFailed
  | reassembleFailed
  | acceptFailed
  | einval
  | ioError
  | notRoot
  | missingArguments
  deriving DecidableEq, Repr

/-- Outcome of a Go call: a value, a returned error, or a run-time panic. -/
inductive Result (α : Type) where
  | ok (v : α)
  | err (e : GoError)
  | goPanic
  deriving DecidableEq, Repr

/-! ## Go standard library: `strings` -/

/-- Go `strings.Index(s, sep) >= 0` split: the text before the first `sep` and the text
after it, or `none` when `sep` does not occur. -/
def cutFirst (sep : Char) : Str → Option (Str × Str)
  | [] => none
  | c :: cs =>
    if c = sep then some ([], cs)
    else match cutFirst sep cs with
      | none => none
      | some (a, b) => some (c :: a, b)

/-- The loop of Go `strings.genSplit`: at most `k` cuts, then the unsplit remainder. -/
def splitLoop (sep : Char) : Nat → Str → List Str
  | 0, s => [s]
  | k + 1, s =>
    match cutFirst sep s with
    | none => [s]
    | some (a, b) => a :: splitLoop sep k b

/-- Go `strings.SplitN(s, sep, n)` for a one-character separator: `n = 0` gives no
substrings, `n < 0` all of them, `n > 0` at most `n` with the last one unsplit.  As in
`genSplit`, a negative `n` becomes `Count(s, sep) + 1` and `n` is capped at `len(s) + 1`;
the cap never changes the result, since a text holds no more separators than characters. -/
def SplitN (s : Str) (sep : Char) (n : Int) : List Str :=
  if n = 0 then []
  else
    let n1 : Nat := if n < 0 then s.count sep + 1 else n.toNat
    let n2 : Nat := if n1 > s.length + 1 then s.length + 1 else n1
    splitLoop sep (n2 - 1) s

/-- Go `strings.Split(s, sep)`, which is `SplitN` with `n = -1`. -/
def Split (s : Str) (sep : Char) : List Str := SplitN s sep (-1)

/-- Go `strings.HasPrefix(s, p)`. -/
def HasPrefix (s p : Str) : Bool := p.isPrefixOf s

/-! ## Go standard library: `strconv` and `fmt` -/

/-- Two's-complement wrap-around of an `int64` result. -/
def wrap64 (x : Int) : Int := (x + 2 ^ 63) % 2 ^ 64 - 2 ^ 63

/-- Outcome of `strconv.ParseUint`: the number, a syntax error or a range error. -/
inductive UintResult where
  | val (n : Nat)
  | syntaxErr
  | rangeErr
  deriving DecidableEq, Repr

/-- The digit loop of Go `strconv.ParseUint(s, 10, 64)`, with accumulator `n : uint64`. -/
def parseUintLoop : Str → Nat → UintResult
  | [], n => .val n
  | c :: cs, n =>
    if '0' ≤ c ∧ c ≤ '9' then
      let d := c.toNat - '0'.toNat
      if n ≥ (2 ^ 64 - 1) / 10 + 1 then .rangeErr
      else
        let n10 := n * 10
        let n1 := (n10 + d) % 2 ^ 64
        if n1 < n10 ∨ n1 > 2 ^ 64 - 1 then .rangeErr
        else parseUintLoop cs n1
    else .syntaxErr

/-- Go `strconv.ParseUint(s, 10, 64)`. -/
def ParseUint (s : Str) : UintResult :=
  if s = [] then .syntaxErr else parseUintLoop s 0

/-- Go `strconv.ParseInt(s, 10, 64)`: optional sign, then `ParseUint`, then the signed
range check against `cutoff = 2^63`. -/
def ParseInt (s0 : Str) : Result Int :=
  match s0 with
  | [] => .err (.numSyntax s0)
  | c :: cs =>
    let neg := c = '-'
    let s := if c = '+' ∨ c = '-' then cs else s0
    match ParseUint s with
    | .syntaxErr => .err (.numSyntax s0)
    | .rangeErr => .err (.numRange s0)
    | .val un =>
      if ¬ neg ∧ un ≥ 2 ^ 63 then .err (.numRange s0)
      else if neg ∧ un > 2 ^ 63 then .err (.numRange s0)
      else .ok (if neg then wrap64 (-(wrap64 un)) else wrap64 un)

/-- Go `%d` formatting of an `int64`. -/
def formatInt (x : Int) : Str :=
  if x < 0 then '-' :: Nat.toDigits 10 x.natAbs else Nat.toDigits 10 x.toNat

/-! ## The address parser -/

/-- The Go struct `proxyAddress`. -/
structure proxyAddress where
  connType : Str
  addr : List Str
  abstract : Bool
  deriving DecidableEq, Repr

/-- Go `parsePortRange(r)`: the first port and the number of ports of one token. -/
def parsePortRange (r : Str) : Result (Int × Int) :=
  let entries := Split r '-'
  if entries.length > 2 then .err (.invalidPortRange r)
  else
    match entries[0]? with
    | none => .goPanic
    | some e0 =>
      match ParseInt e0 with
      | .err e => .err e
      | .goPanic => .goPanic
      | .ok base =>
        if entries.length > 1 then
          match entries[1]? with
          | none => .goPanic
          | some e1 =>
            match ParseInt e1 with
            | .err e => .err e
            | .goPanic => .goPanic
            | .ok size => .ok (base, wrap64 (wrap64 (size - base) + 1))
        else .ok (base, 1)

/-- The inner loop of `parseAddr`: `for i := int64(0); i < portRange; i++`, formatting
`"%s:%d"` from the host and `portFirst+i`. -/
def expandPorts (host : Str) (portFirst portRange : Int) : List Str :=
  (List.range portRange.toNat).map
    (fun (i : Nat) => host ++ ':' :: formatInt (wrap64 (portFirst + (i : Int))))

/-- The outer loop of `parseAddr` over the port tokens, appending to `newProxyAddr.addr`. -/
def portsLoop (host : Str) : List Str → List Str → Result (List Str)
  | [], acc => .ok acc
  | port :: rest, acc =>
    match parsePortRange port with
    | .err e => .err e
    | .goPanic => .goPanic
    | .ok (portFirst, portRange) =>
      portsLoop host rest (acc ++ expandPorts host portFirst portRange)

/-- Go `parseAddr(addr)`. -/
def parseAddr (addr : Str) : Result proxyAddress :=
  let fields := SplitN addr ':' 2
  match fields[0]?, fields[1]? with
  | some f0, some f1 =>
    let connType := f0
    let abstract := HasPrefix f1 ['@']
    if connType = "unix".toList then
      .ok { connType := connType, addr := [f1], abstract := abstract }
    else
      let addrParts := SplitN f1 ':' 2
      if addrParts.length = 1 then
        .ok { connType := connType, addr := [f1], abstract := abstract }
      else
        match addrParts[0]?, addrParts[1]? with
        | some a0, some a1 =>
          let ports := SplitN a1 ',' (-1)
          match portsLoop a0 ports [] with
          | .err e => .err e
          | .goPanic => .goPanic
          | .ok addrs => .ok { connType := connType, addr := addrs, abstract := abstract }
        | _, _ => .goPanic
  | _, _ => .goPanic

/-! ## `Run`: the positional arguments -/

/-- The start of `Run`: the root check, then `len(args) != 6`, which returns nil for no
argument and the error "Missing required arguments" otherwise.  `none`: `Run` goes on, and
reads the listen spec from `args[1]` and the connect spec from `args[3]`. -/
def runArgs (euid : Nat) (args : List Str) : Option (Result Unit) :=
  if euid ≠ 0 then some (.err .notRoot)
  else if args.length ≠ 6 then
    if args.length = 0 then some (.ok ()) else some (.err .missingArguments)
  else none

/-! ## `Run`: parsing both endpoints and validating the port mapping -/

/-- The port-mapping validation of `Run`.  The guard is the source's expression
`(l == "udp" || l == "tcp") && c == "udp" || c == "tcp"`, in which `&&` binds tighter
than `||`.  The result is the error `Run` returns, or `none` when it goes on. -/
def checkPortMapping (lAddr cAddr : proxyAddress) : Option GoError :=
  if ((lAddr.connType = "udp".toList ∨ lAddr.connType = "tcp".toList)
        ∧ cAddr.connType = "udp".toList) ∨ cAddr.connType = "tcp".toList then
    if lAddr.addr.length > 1 ∧ cAddr.addr.length > 1
        ∧ cAddr.addr.length ≠ lAddr.addr.length then
      some .invalidPortMapping
    else if lAddr.addr.length = 1 ∧ cAddr.addr.length > 1 then
      some .invalidPortMapping
    else none
  else none

/-- The start of `Run`: parse the listen spec, parse the connect spec, validate. -/
def runSetup (listenAddr connectAddr : Str) : Result (proxyAddress × proxyAddress) :=
  match parseAddr listenAddr with
  | .err e => .err e
  | .goPanic => .goPanic
  | .ok lAddr =>
    match parseAddr connectAddr with
    | .err e => .err e
    | .goPanic => .goPanic
    | .ok cAddr =>
      match checkPortMapping lAddr cAddr with
      | some e => .err e
      | none => .ok (lAddr, cAddr)

/-! ## `Run`, listen side: acquiring and sending the listener descriptors -/

/-- Outcome of `os.Remove` on the stale socket path. -/
inductive RemoveOutcome where
  | removed
  | notExist
  | failed (e : GoError)
  deriving DecidableEq, Repr

/-- The operating system as the listen side sees it: the outcome of `os.Remove`, of the
`k`-th call of `getListenerFile` (a descriptor or an error) and of the `k`-th call of
`shared.AbstractUnixSendFd` (`none` is a nil error). -/
structure ChildWorld where
  remove : RemoveOutcome
  getListenerFile : Nat → Str → Str → Result Nat
  sendFd : Nat → Nat → Option GoError

/-- The loop `for _, addr := range lAddr.addr` of the listen side, from position `k` on.
`outerErr` is the variable `err` of `Run` that the final `return err` reads; the loop body
declares its own `err` with `file, err := getListenerFile(..)`, and it is this inner
variable that `err = shared.AbstractUnixSendFd(..)` assigns.  The result is what `Run`
returns: `.ok ()` stands for a nil error. -/
def childLoop (w : ChildWorld) (connType : Str) (outerErr : Option GoError) :
    Nat → List Str → Result Unit
  | _, [] =>
    match outerErr with
    | none => .ok ()
    | some e => .err e
  | k, addr :: rest =>
    match w.getListenerFile k connType addr with
    | .err e => .err e
    | .goPanic => .goPanic
    | .ok file =>
      let innerErr := w.sendFd k file
      if innerErr ≠ none then
        match outerErr with
        | none => .ok ()
        | some e => .err e
      else childLoop w connType outerErr (k + 1) rest

/-- The listen-side branch of `Run` (`C.whoami == C.FORKPROXY_CHILD`), entered after both
specs parsed, so with the outer `err` equal to nil. -/
def runChild (w : ChildWorld) (lAddr : proxyAddress) : Result Unit :=
  if lAddr.connType = "unix".toList ∧ lAddr.abstract = false then
    match lAddr.addr[0]? with
    | none => .goPanic
    | some _ =>
      match w.remove with
      | .failed e => .err e
      | _ => childLoop w lAddr.connType none 0 lAddr.addr
  else childLoop w lAddr.connType none 0 lAddr.addr

/-! ## `Run`, connect side: the listener registry -/

/-- The Go struct `lStruct`; a nil pointer field is `none`, a non-nil one carries the
descriptor it was made from. -/
structure lStruct where
  f : Option Nat
  lConn : Option Nat
  udpConn : Option Nat
  lAddrIndex : Nat
  deriving DecidableEq, Repr

/-- Go map assignment `m[key] = v` on an association list. -/
def mapSet (m : List (Nat × lStruct)) (key : Nat) (v : lStruct) : List (Nat × lStruct) :=
  match m with
  | [] => [(key, v)]
  | (k, x) :: rest => if k = key then (key, v) :: rest else (k, x) :: mapSet rest key v

/-- Go map lookup `v, ok := m[key]`. -/
def mapGet (m : List (Nat × lStruct)) (key : Nat) : Option lStruct :=
  match m with
  | [] => none
  | (k, x) :: rest => if k = key then some x else mapGet rest key

/-- The two loops of `Run` that fill `listenerMap` from the received files, from index `i`
on.  `fileListener` is `net.FileListener`: whether the descriptor reassembles. -/
def fillListenerMap (isUDPListener : Bool) (fileListener : Nat → Bool) :
    Nat → List Nat → List (Nat × lStruct) → Result (List (Nat × lStruct))
  | _, [], m => .ok m
  | i, f :: rest, m =>
    if isUDPListener then
      fillListenerMap isUDPListener fileListener (i + 1) rest
        (mapSet m f { f := some f, lConn := none, udpConn := none, lAddrIndex := i })
    else if fileListener f then
      fillListenerMap isUDPListener fileListener (i + 1) rest
        (mapSet m f { f := none, lConn := some f, udpConn := none, lAddrIndex := i })
    else .err .reassembleFailed

/-- The registry `Run` builds: `isUDPListener := lAddr.connType == "udp"`, then the loops. -/
def buildListenerMap (lAddr : proxyAddress) (fileListener : Nat → Bool) (files : List Nat) :
    Result (List (Nat × lStruct)) :=
  fillListenerMap (decide (lAddr.connType = "udp".toList)) fileListener 0 files []

/-! ## `listenerInstance`: the connect address -/

/-- Go `cAddr.addr[i]`, which panics when `i` is out of range. -/
def indexAddr (addr : List Str) (i : Nat) : Result Str :=
  match addr[i]? with
  | none => .goPanic
  | some a => .ok a

/-- The connect address of the udp branch of `listenerInstance`. -/
def connectAddrUDP (cAddr : proxyAddress) (l : lStruct) : Result Str :=
  match indexAddr cAddr.addr 0 with
  | .ok connectAddr =>
    if cAddr.addr.length > 1 then indexAddr cAddr.addr l.lAddrIndex
    else .ok connectAddr
  | r => r

/-- The connect address of the stream branch of `listenerInstance`. -/
def connectAddrStream (lAddr cAddr : proxyAddress) (l : lStruct) : Result Str :=
  match indexAddr cAddr.addr 0 with
  | .ok connectAddr =>
    if lAddr.connType ≠ "unix".toList ∧ cAddr.connType ≠ "unix".toList
        ∧ cAddr.addr.length > 1 then
      indexAddr cAddr.addr l.lAddrIndex
    else .ok connectAddr
  | r => r

/-- Go `listenerInstance`, up to the address it passes to `net.Dial`.  `acceptOk` is the
outcome of `Accept` on the stream listener. -/
def listenerInstance (lAddr cAddr : proxyAddress) (l : lStruct) (acceptOk : Bool) :
    Result Str :=
  if lAddr.connType = "udp".toList then connectAddrUDP cAddr l
  else
    match l.lConn with
    | none => .goPanic
    | some _ =>
      if acceptOk then connectAddrStream lAddr cAddr l
      else .err .acceptFailed

/-! ## The SIGTERM handler of `Run` -/

/-- What the SIGTERM handler does to the outside world, in order. -/
inductive Action where
  | epollDel (fd : Nat)
  | closeFile (fd : Nat)
  | closeEpoll
  | closeListener (fd : Nat)
  | closeUDPConn (fd : Nat)
  | kill
  deriving DecidableEq, Repr

/-- The loop `for _, f := range files` of the handler. -/
def closeFiles (files : List Nat) : List Action :=
  (files.map (fun f => [Action.epollDel f, Action.closeFile f])).flatten

/-- The loop `for _, l := range listenerMap` of the handler: the actions done, and whether
the loop ran to its end (`false`: a nil pointer was dereferenced). -/
def closeRegistry (isUDPListener : Bool) : List (Nat × lStruct) → List Action × Bool
  | [] => ([], true)
  | (_, l) :: rest =>
    if isUDPListener then
      match l.udpConn with
      | none => ([], false)
      | some c =>
        let r := closeRegistry isUDPListener rest
        (Action.closeUDPConn c :: r.1, r.2)
    else
      match l.lConn with
      | none => ([], false)
      | some c =>
        let r := closeRegistry isUDPListener rest
        (Action.closeListener c :: r.1, r.2)

/-- The goroutine `Run` starts for SIGTERM, once the signal has arrived: the actions it
performs; the last one is `kill` exactly when it was not stopped by a panic. -/
def sigtermHandler (isUDPListener : Bool) (files : List Nat)
    (listenerMap : List (Nat × lStruct)) : List Action :=
  let r := closeRegistry isUDPListener listenerMap
  closeFiles files ++ [Action.closeEpoll] ++ r.1 ++ (if r.2 then [Action.kill] else [])

/-! ## `unixRelayer`: one message -/

/-- Go `syscall.SocketControlMessage`: the header's level and type, and the data read as
the `int32` values it holds. -/
structure SocketControlMessage where
  level : Int
  type : Int
  data : List Int
  deriving DecidableEq, Repr

/-- Linux `SOL_SOCKET`. -/
def SOL_SOCKET : Int := 1

/-- Linux `SCM_RIGHTS`. -/
def SCM_RIGHTS : Int := 1

/-- Go `syscall.ParseUnixRights`: the descriptors of an `SCM_RIGHTS` message, else `EINVAL`. -/
def ParseUnixRights (m : SocketControlMessage) : Result (List Int) :=
  if m.level ≠ SOL_SOCKET then .err .einval
  else if m.type ≠ SCM_RIGHTS then .err .einval
  else .ok m.data

/-- The loop `for _, msg := range entries { fds, err = syscall.ParseUnixRights(&msg) .. }`:
each round assigns `fds`.  A nil slice is `none`. -/
def parseEntries : List SocketControlMessage → Option (List Int) → Result (Option (List Int))
  | [], fds => .ok fds
  | msg :: rest, _ =>
    match ParseUnixRights msg with
    | .ok fds => parseEntries rest (some fds)
    | .err e => .err e
    | .goPanic => .goPanic

/-- The loop `for _, fd := range fds { syscall.Close(fd) .. }`: the descriptors closed, and
whether every close succeeded. -/
def closeFds (closeOk : Int → Bool) : List Int → List Int × Bool
  | [] => ([], true)
  | fd :: rest =>
    if closeOk fd then
      let r := closeFds closeOk rest
      (fd :: r.1, r.2)
    else ([fd], false)

/-- One received message, as `unixRelayer` sees it: the byte counts `ReadMsgUnix` returned,
the control messages `ParseSocketControlMessage` finds in the ancillary bytes (`none`: it
fails), the counts `WriteMsgUnix` returns once it no longer reports `EAGAIN` (`none`: it
fails), and which descriptors `syscall.Close` closes without error. -/
structure RelayedMessage where
  sData : Nat
  sOob : Nat
  entries : Option (List SocketControlMessage)
  written : Option (Nat × Nat)
  closeOk : Int → Bool

/-- What one round of the loop of `unixRelayer` did. -/
structure RoundResult where
  forwarded : Bool
  closed : List Int
  goesOn : Bool
  deriving DecidableEq, Repr

/-- One round of the `for` loop of `unixRelayer`, after a successful read. -/
def unixRelayerRound (m : RelayedMessage) : RoundResult :=
  let parsed : Result (Option (List Int)) :=
    if m.sOob > 0 then
      match m.entries with
      | none => .err .einval
      | some entries => parseEntries entries none
    else .ok none
  match parsed with
  | .err _ => { forwarded := false, closed := [], goesOn := false }
  | .goPanic => { forwarded := false, closed := [], goesOn := false }
  | .ok fds =>
    match m.written with
    | none => { forwarded := false, closed := [], goesOn := false }
    | some (tData, tOob) =>
      if m.sData ≠ tData ∨ m.sOob ≠ tOob then
        { forwarded := false, closed := [], goesOn := false }
      else
        match fds with
        | none => { forwarded := true, closed := [], goesOn := true }
        | some fds =>
          let r := closeFds m.closeOk fds
          { forwarded := true, closed := r.1, goesOn := r.2 }

/-! ## `genericRelay`: the three goroutines as a transition system -/

/-- One of the two copy directions of `genericRelay`. -/
inductive Direction where
  | send
  | recv
  deriving DecidableEq, Repr

/-- A `relayer` goroutine: inside `io.Copy`, blocked in `ch <- err` with the error of the
copy, or finished. -/
inductive Relayer where
  | copying
  | sending (err : Option GoError)
  | finished
  deriving DecidableEq, Repr

/-- Where the goroutine running `genericRelay` stands. -/
inductive MainPc where
  | recvSend
  | recvRecv
  | closeSrc
  | closeDst
  | report
  | returned
  deriving DecidableEq, Repr

/-- The state of one call of `genericRelay`. -/
structure RelayState where
  sendDir : Relayer
  recvDir : Relayer
  pc : MainPc
  errSnd : Option GoError
  errRcv : Option GoError
  srcClosed : Bool
  dstClosed : Bool
  deriving DecidableEq, Repr

/-- The state after both `go relayer(..)` statements. -/
def RelayState.init : RelayState :=
  { sendDir := .copying, recvDir := .copying, pc := .recvSend, errSnd := none,
    errRcv := none, srcClosed := false, dstClosed := false }

/-- The atomic steps of the three goroutines. -/
inductive RelayEvent where
  | copyEnds (d : Direction) (err : Option GoError)
  | handOver (d : Direction)
  | mainStep
  deriving DecidableEq, Repr

/-- The step a goroutine takes, or `none` when the event is not enabled.  `copyEnds` is
`io.Copy` returning in a relayer; `handOver` is the rendezvous on the unbuffered channel,
possible only when the relayer is blocked in its send and the main goroutine stands at the
matching receive (`errSnd := <-chSend` first, `errRcv := <-chRecv` second); `mainStep` is
the next of `src.Close()`, `dst.Close()` and the reporting. -/
def genericRelayStep (s : RelayState) : RelayEvent → Option RelayState
  | .copyEnds .send err =>
    match s.sendDir with
    | .copying => some { s with sendDir := .sending err }
    | _ => none
  | .copyEnds .recv err =>
    match s.recvDir with
    | .copying => some { s with recvDir := .sending err }
    | _ => none
  | .handOver .send =>
    match s.sendDir, s.pc with
    | .sending err, .recvSend => some { s with sendDir := .finished, errSnd := err, pc := .recvRecv }
    | _, _ => none
  | .handOver .recv =>
    match s.recvDir, s.pc with
    | .sending err, .recvRecv => some { s with recvDir := .finished, errRcv := err, pc := .closeSrc }
    | _, _ => none
  | .mainStep =>
    match s.pc with
    | .closeSrc => some { s with srcClosed := true, pc := .closeDst }
    | .closeDst => some { s with dstClosed := true, pc := .report }
    | .report => some { s with pc := .returned }
    | _ => none

/-- A run: the events taken one after the other. -/
def genericRelayRun (s : RelayState) : List RelayEvent → Option RelayState
  | [] => some s
  | e :: rest =>
    match genericRelayStep s e with
    | none => none
    | some t => genericRelayRun t rest

/-- Whether a copy direction has ended: `io.Copy` has returned. -/
def Relayer.ended : Relayer → Bool
  | .copying => false
  | _ => true

/-- The invariant of `genericRelay`, by the position of the main goroutine: before the
receive from `chSend` no relayer has finished and nothing is closed; before the receive
from `chRecv` the send relayer has finished, the other has not, and nothing is closed;
from `src.Close()` on both relayers have finished, and `src` is closed before
`dst.Close()`, both are closed after it. -/
def relayInv (s : RelayState) : Prop :=
  match s.pc with
  | .recvSend =>
    s.sendDir ≠ .finished ∧ s.recvDir ≠ .finished ∧ s.srcClosed = false ∧ s.dstClosed = false
  | .recvRecv =>
    s.sendDir = .finished ∧ s.recvDir ≠ .finished ∧ s.srcClosed = false ∧ s.dstClosed = false
  | .closeSrc =>
    s.sendDir = .finished ∧ s.recvDir = .finished ∧ s.srcClosed = false ∧ s.dstClosed = false
  | .closeDst =>
    s.sendDir = .finished ∧ s.recvDir = .finished ∧ s.srcClosed = true ∧ s.dstClosed = false
  | .report =>
    s.sendDir = .finished ∧ s.recvDir = .finished ∧ s.srcClosed = true ∧ s.dstClosed = true
  | .returned =>
    s.sendDir = .finished ∧ s.recvDir = .finished ∧ s.srcClosed = true ∧ s.dstClosed = true

/-- A listen side on which every listener is acquired and the send at position `p` fails. -/
def sendFailsAt (p : Nat) : ChildWorld :=
  { remove := .removed
    getListenerFile := fun k _ _ => .ok (10 + k)
    sendFd := fun k _ => if k = p then some .sendFailed else none }

/-- What Linux hands to a read on a unix socket that has no credential passing enabled,
as `unixRelayer` uses it: the descriptors sent with one message arrive merged into a single
`SCM_RIGHTS` control message, and one read returns the descriptors of one message only.
The control messages of a read are therefore none, or exactly one `SCM_RIGHTS` message. -/
def kernelDelivered (es : List SocketControlMessage) : Prop :=
  es.length ≤ 1 ∧ ∀ e ∈ es, e.level = SOL_SOCKET ∧ e.type = SCM_RIGHTS

/-- A message of one data byte whose ancillary data holds one `SCM_RIGHTS` control
message with the descriptors 3 and 4, forwarded with matching counts; every close
succeeds. -/
def rightsMessage : RelayedMessage :=
  { sData := 1
    sOob := 24
    entries := some [{ level := SOL_SOCKET, type := SCM_RIGHTS, data := [3, 4] }]
    written := some (1, 24)
    closeOk := fun _ => true }

/-- The state of `genericRelay` in which the send direction has ended without error and
waits in `ch <- err`, while the other direction still copies. -/
def sendEndedFirst : RelayState :=
  { sendDir := .sending none, recvDir := .copying, pc := .recvSend, errSnd := none,
    errRcv := none, srcClosed := false, dstClosed := false }

/-- While the receive direction copies, the main goroutine stands at one of its two
channel receives and nothing is closed. -/
def recvCopying (s : RelayState) : Prop :=
  s.recvDir = .copying ∧ s.srcClosed = false ∧ s.dstClosed = false
    ∧ (s.pc = .recvSend ∨ s.pc = .recvRecv)

/-! ## The port grammar of the specification -/

/-- A decimal numeral: a non-empty string of the digits `0`..`9`. -/
def isDecimal (ds : Str) : Bool :=
  ds ≠ [] && ds.all (fun c => decide ('0' ≤ c ∧ c ≤ '9'))

/-- The number a decimal numeral denotes. -/
def decimalValue (ds : Str) : Nat :=
  ds.foldl (fun acc c => acc * 10 + (c.toNat - 48)) 0

/-- A token of a port list: a single port `N`, or a range `N-M`. -/
inductive PortToken where
  | single (n : Str)
  | range (n m : Str)
  deriving DecidableEq, Repr

/-- The text of a token. -/
def PortToken.render : PortToken → Str
  | .single n => n
  | .range n m => n ++ '-' :: m

/-- Texts joined with a separator character between neighbours. -/
def joinWith (sep : Char) : List Str → Str
  | [] => []
  | [t] => t
  | t :: u :: rest => t ++ sep :: joinWith sep (u :: rest)

/-- The tokens joined with commas. -/
def renderPorts (toks : List PortToken) : Str :=
  joinWith ',' (toks.map PortToken.render)

/-- A token made of decimals with `N <= M` for a range. -/
def PortToken.wellFormed : PortToken → Bool
  | .single n => isDecimal n
  | .range n m => isDecimal n && isDecimal m && decide (decimalValue n ≤ decimalValue m)

/-- A token whose numbers fit `int64` and whose range size `M - N + 1` fits it too. -/
def PortToken.fits64 : PortToken → Bool
  | .single n => decide (decimalValue n < 2 ^ 63)
  | .range n m =>
    decide (decimalValue m < 2 ^ 63) && decide (decimalValue m - decimalValue n + 1 < 2 ^ 63)

/-- The addresses the specification gives a token: `host:N`, or `host:N` .. `host:M`. -/
def PortToken.expand (host : Str) : PortToken → List Str
  | .single n => [host ++ ':' :: (Nat.repr (decimalValue n)).toList]
  | .range n m =>
    (List.range' (decimalValue n) (decimalValue m + 1 - decimalValue n)).map
      (fun p => host ++ ':' :: (Nat.repr p).toList)

/-- The address list the specification gives a port list, in textual order. -/
def expandAll (host : Str) (toks : List PortToken) : List Str :=
  (toks.map (PortToken.expand host)).flatten

/-! ## Lemmas on splitting -/

theorem cutFirst_absent (sep : Char) (a : Str) (h : sep ∉ a) : cutFirst sep a = none := by
  induction a with
  | nil => rfl
  | cons c cs ih =>
    simp only [List.mem_cons, not_or] at h
    have hc : c ≠ sep := fun e => h.1 e.symm
    simp [cutFirst, hc, ih h.2]

theorem cutFirst_at (sep : Char) (a b : Str) (h : sep ∉ a) :
    cutFirst sep (a ++ sep :: b) = some (a, b) := by
  induction a with
  | nil => simp [cutFirst]
  | cons c cs ih =>
    simp only [List.mem_cons, not_or] at h
    have hc : c ≠ sep := fun e => h.1 e.symm
    simp [cutFirst, hc, ih h.2]

theorem SplitN_two (sep : Char) (a b : Str) (h : sep ∉ a) :
    SplitN (a ++ sep :: b) sep 2 = [a, b] := by
  have hlen : ¬ (2 > (a ++ sep :: b).length + 1) := by simp; omega
  simp only [SplitN, hlen]
  simp [splitLoop, cutFirst_at sep a b h]

theorem SplitN_two_absent (sep : Char) (a : Str) (h : sep ∉ a) :
    SplitN a sep 2 = [a] := by
  unfold SplitN
  simp only [OfNat.ofNat_ne_zero, if_false]
  split_ifs <;> cases hk : (a.length + 1 - 1) <;>
    simp [splitLoop, cutFirst_absent sep a h] <;> simp_all [splitLoop, cutFirst_absent sep a h]

theorem splitLoop_joinWith (sep : Char) (ts : List Str) (hne : ts ≠ [])
    (h : ∀ x ∈ ts, sep ∉ x) (k : Nat) (hk : ts.length ≤ k + 1) :
    splitLoop sep k (joinWith sep ts) = ts := by
  induction ts generalizing k with
  | nil => exact absurd rfl hne
  | cons t rest ih =>
    cases rest with
    | nil =>
      have ht : sep ∉ t := h t (by simp)
      cases k <;> simp [joinWith, splitLoop, cutFirst_absent sep t ht]
    | cons u rest =>
      have ht : sep ∉ t := h t (by simp)
      cases k with
      | zero => simp at hk
      | succ k =>
        have hrest := ih (by simp) (fun x hx => h x (List.mem_cons_of_mem _ hx)) k
          (by simpa using hk)
        simp only [joinWith, splitLoop, cutFirst_at sep t _ ht, hrest]

theorem count_joinWith (sep : Char) (ts : List Str) (h : ∀ x ∈ ts, sep ∉ x) :
    (joinWith sep ts).count sep = ts.length - 1 := by
  induction ts with
  | nil => rfl
  | cons t rest ih =>
    have ht : sep ∉ t := h t (by simp)
    cases rest with
    | nil => simpa [joinWith] using List.count_eq_zero_of_not_mem ht
    | cons u rest =>
      have hrest := ih (fun x hx => h x (List.mem_cons_of_mem _ hx))
      simp only [joinWith, List.count_append, List.count_cons_self, hrest,
        List.count_eq_zero_of_not_mem ht]
      simp

theorem count_le_length (sep : Char) (s : Str) : s.count sep ≤ s.length :=
  List.count_le_length sep s

theorem SplitN_all (sep : Char) (ts : List Str) (hne : ts ≠ [])
    (h : ∀ x ∈ ts, sep ∉ x) : SplitN (joinWith sep ts) sep (-1) = ts := by
  have hcount := count_joinWith sep ts h
  have hle := count_le_length sep (joinWith sep ts)
  have hlen : 0 < ts.length := List.length_pos.mpr hne
  have hn : ¬ ((joinWith sep ts).count sep + 1 > (joinWith sep ts).length + 1) := by omega
  have hk : splitLoop sep ((joinWith sep ts).count sep) (joinWith sep ts) = ts :=
    splitLoop_joinWith sep ts hne h _ (by omega)
  simp only [SplitN, show ((-1 : Int) = 0) = False from by simp, if_false,
    show ((-1 : Int) < 0) = True from by simp, if_true, if_neg hn, Nat.add_sub_cancel]
  exact hk

/-! ## Lemmas on number parsing -/

theorem digit_ne_sep (c : Char) (h : '0' ≤ c ∧ c ≤ '9') :
    c ≠ '-' ∧ c ≠ '+' ∧ c ≠ ',' ∧ c ≠ ':' := by
  refine ⟨?_, ?_, ?_, ?_⟩ <;> intro e <;> subst e <;> revert h <;> decide

theorem isDecimal_iff (ds : Str) :
    isDecimal ds = true ↔ ds ≠ [] ∧ ∀ c ∈ ds, '0' ≤ c ∧ c ≤ '9' := by
  simp [isDecimal]

theorem decimal_no_sep (ds : Str) (h : isDecimal ds = true) :
    '-' ∉ ds ∧ ',' ∉ ds ∧ ':' ∉ ds := by
  have hd := ((isDecimal_iff ds).mp h).2
  refine ⟨?_, ?_, ?_⟩ <;> intro hm
  · exact (digit_ne_sep _ (hd _ hm)).1 rfl
  · exact (digit_ne_sep _ (hd _ hm)).2.2.1 rfl
  · exact (digit_ne_sep _ (hd _ hm)).2.2.2 rfl

theorem foldl_digits_ge (cs : Str) (n : Nat) :
    n ≤ cs.foldl (fun acc c => acc * 10 + (c.toNat - 48)) n := by
  induction cs generalizing n with
  | nil => simp
  | cons c cs ih =>
    simp only [List.foldl_cons]
    exact le_trans (by omega) (ih _)

theorem parseUintLoop_decimal (ds : Str) (n : Nat)
    (hd : ∀ c ∈ ds, '0' ≤ c ∧ c ≤ '9')
    (hlt : ds.foldl (fun acc c => acc * 10 + (c.toNat - 48)) n < 2 ^ 64) :
    parseUintLoop ds n = .val (ds.foldl (fun acc c => acc * 10 + (c.toNat - 48)) n) := by
  induction ds generalizing n with
  | nil => rfl
  | cons c cs ih =>
    have hc := hd c (by simp)
    simp only [List.foldl_cons] at hlt ⊢
    have hge := foldl_digits_ge cs (n * 10 + (c.toNat - 48))
    have h0 : '0'.toNat = 48 := rfl
    have hlt1 : n * 10 + (c.toNat - 48) < 2 ^ 64 := lt_of_le_of_lt hge hlt
    have hmod : (n * 10 + (c.toNat - 48)) % 2 ^ 64 = n * 10 + (c.toNat - 48) :=
      Nat.mod_eq_of_lt hlt1
    have h1 : ¬ (n ≥ (2 ^ 64 - 1) / 10 + 1) := by
      norm_num at hlt1 ⊢
      omega
    have h2 : ¬ (n * 10 + (c.toNat - 48) < n * 10 ∨ n * 10 + (c.toNat - 48) > 2 ^ 64 - 1) := by
      norm_num at hlt1 ⊢
      omega
    simp only [parseUintLoop, hc, and_self, if_true, h0, hmod, if_neg h1, if_neg h2]
    exact ih _ (fun x hx => hd x (List.mem_cons_of_mem _ hx)) hlt

theorem wrap64_small (x : Int) (h0 : 0 ≤ x) (h1 : x < 2 ^ 63) : wrap64 x = x := by
  unfold wrap64
  norm_num at h1 ⊢
  omega

theorem ParseInt_decimal (ds : Str) (hd : isDecimal ds = true)
    (hlt : decimalValue ds < 2 ^ 63) : ParseInt ds = .ok (decimalValue ds : Int) := by
  obtain ⟨hne, hdig⟩ := (isDecimal_iff ds).mp hd
  cases ds with
  | nil => exact absurd rfl hne
  | cons c cs =>
    have hc := digit_ne_sep c (hdig c (by simp))
    have hlt64 : decimalValue (c :: cs) < 2 ^ 64 := lt_trans hlt (by norm_num)
    have hu : ParseUint (c :: cs) = .val (decimalValue (c :: cs)) := by
      simp only [ParseUint, if_false, reduceCtorEq]
      exact parseUintLoop_decimal (c :: cs) 0 hdig hlt64
    have hw : wrap64 (decimalValue (c :: cs) : Int) = (decimalValue (c :: cs) : Int) :=
      wrap64_small _ (by positivity) (by exact_mod_cast hlt)
    have hlt2 : ¬ (decimalValue (c :: cs) ≥ 2 ^ 63) := not_le.mpr hlt
    have hlt3 : decimalValue (c :: cs) < 9223372036854775808 := by
      norm_num at hlt
      exact hlt
    simp [ParseInt, hc.1, hc.2.1, hu, hw, hlt3]

/-! ## Lemmas on `parsePortRange` and the expansion loops -/

theorem Split_single (sep : Char) (a : Str) (h : sep ∉ a) : Split a sep = [a] := by
  have := SplitN_all sep [a] (by simp) (by simpa using h)
  simpa [joinWith, Split] using this

theorem Split_pair (sep : Char) (a b : Str) (ha : sep ∉ a) (hb : sep ∉ b) :
    Split (a ++ sep :: b) sep = [a, b] := by
  have := SplitN_all sep [a, b] (by simp) (by simp [ha, hb])
  simpa [joinWith, Split] using this

theorem parsePortRange_single (n : Str) (hd : isDecimal n = true)
    (hlt : decimalValue n < 2 ^ 63) :
    parsePortRange n = .ok ((decimalValue n : Int), 1) := by
  have hs := Split_single '-' n (decimal_no_sep n hd).1
  simp [parsePortRange, hs, ParseInt_decimal n hd hlt]

theorem parsePortRange_range (n m : Str) (hn : isDecimal n = true) (hm : isDecimal m = true)
    (hle : decimalValue n ≤ decimalValue m) (hlt : decimalValue m < 2 ^ 63)
    (hsize : decimalValue m - decimalValue n + 1 < 2 ^ 63) :
    parsePortRange (n ++ '-' :: m) =
      .ok ((decimalValue n : Int), ((decimalValue m - decimalValue n + 1 : Nat) : Int)) := by
  have hs := Split_pair '-' n m (decimal_no_sep n hn).1 (decimal_no_sep m hm).1
  have hnlt : decimalValue n < 2 ^ 63 := lt_of_le_of_lt hle hlt
  have h1 : wrap64 ((decimalValue m : Int) - (decimalValue n : Int)) =
      (decimalValue m : Int) - (decimalValue n : Int) :=
    wrap64_small _ (by omega) (by omega)
  have h2 : wrap64 ((decimalValue m : Int) - (decimalValue n : Int) + 1) =
      ((decimalValue m - decimalValue n + 1 : Nat) : Int) := by
    rw [wrap64_small _ (by omega) (by omega)]
    omega
  simp [parsePortRange, hs, ParseInt_decimal n hn hnlt, ParseInt_decimal m hm hlt, h1, h2]

theorem formatInt_natCast (n : Nat) : formatInt (n : Int) = (Nat.repr n).toList := by
  simp [formatInt, Nat.repr, List.asString, String.toList]

theorem expandPorts_single (host : Str) (n : Nat) (hlt : n < 2 ^ 63) :
    expandPorts host (n : Int) 1 = [host ++ ':' :: (Nat.repr n).toList] := by
  have hw : wrap64 (n : Int) = (n : Int) := wrap64_small _ (by positivity) (by exact_mod_cast hlt)
  simp [expandPorts, List.range_succ, hw, formatInt_natCast]

theorem expandPorts_range (host : Str) (n m : Nat) (hle : n ≤ m) (hlt : m < 2 ^ 63) :
    expandPorts host (n : Int) ((m - n + 1 : Nat) : Int) =
      (List.range' n (m + 1 - n)).map (fun p => host ++ ':' :: (Nat.repr p).toList) := by
  have hk : m + 1 - n = m - n + 1 := by omega
  rw [expandPorts, Int.toNat_ofNat, hk, List.range'_eq_map_range, List.map_map]
  apply List.map_congr_left
  intro i hi
  have hi2 : i < m - n + 1 := List.mem_range.mp hi
  have hw : wrap64 ((n : Int) + (i : Int)) = ((n + i : Nat) : Int) := by
    rw [wrap64_small _ (by positivity) (by omega)]
    simp
  simp only [Function.comp, hw, formatInt_natCast]

theorem parsePortRange_token (host : Str) (t : PortToken)
    (hwf : t.wellFormed = true) (hfit : t.fits64 = true) :
    ∃ first size, parsePortRange t.render = .ok (first, size) ∧
      expandPorts host first size = t.expand host := by
  cases t with
  | single n =>
    simp only [PortToken.wellFormed] at hwf
    simp only [PortToken.fits64, decide_eq_true_eq] at hfit
    exact ⟨_, _, parsePortRange_single n hwf hfit, expandPorts_single host _ hfit⟩
  | range n m =>
    simp only [PortToken.wellFormed, Bool.and_eq_true, decide_eq_true_eq] at hwf
    simp only [PortToken.fits64, Bool.and_eq_true, decide_eq_true_eq] at hfit
    exact ⟨_, _, parsePortRange_range n m hwf.1.1 hwf.1.2 hwf.2 hfit.1 hfit.2,
      expandPorts_range host _ _ hwf.2 hfit.1⟩

theorem portsLoop_tokens (host : Str) (toks : List PortToken) (acc : List Str)
    (hwf : ∀ t ∈ toks, t.wellFormed = true) (hfit : ∀ t ∈ toks, t.fits64 = true) :
    portsLoop host (toks.map PortToken.render) acc = .ok (acc ++ expandAll host toks) := by
  induction toks generalizing acc with
  | nil => simp [portsLoop, expandAll]
  | cons t rest ih =>
    obtain ⟨first, size, hp, he⟩ :=
      parsePortRange_token host t (hwf t (by simp)) (hfit t (by simp))
    have hrest := ih (acc ++ expandPorts host first size)
      (fun x hx => hwf x (List.mem_cons_of_mem _ hx))
      (fun x hx => hfit x (List.mem_cons_of_mem _ hx))
    simp only [List.map_cons, portsLoop, hp]
    rw [hrest, he]
    simp [expandAll]

theorem render_no_comma (t : PortToken) (hwf : t.wellFormed = true) : ',' ∉ t.render := by
  cases t with
  | single n =>
    simp only [PortToken.wellFormed] at hwf
    exact (decimal_no_sep n hwf).2.1
  | range n m =>
    simp only [PortToken.wellFormed, Bool.and_eq_true, decide_eq_true_eq] at hwf
    have h1 := (decimal_no_sep n hwf.1.1).2.1
    have h2 := (decimal_no_sep m hwf.1.2).2.1
    simp [PortToken.render, h1, h2]

theorem HasPrefix_host (host rest : Str) :
    HasPrefix (host ++ ':' :: rest) ['@'] = HasPrefix host ['@'] := by
  cases host <;> simp [HasPrefix, List.isPrefixOf]

/-- C1 (amended): for tcp and udp, a host without a colon and a non-empty port list of
well-formed tokens whose numbers and range sizes fit `int64`, `parseAddr` succeeds and its
address list is the concatenation, in textual order, of `host:N` for a single port and
`host:N` .. `host:M` ascending for a range. -/
theorem parseAddr_port_list (proto host : Str) (toks : List PortToken)
    (hproto : proto = "tcp".toList ∨ proto = "udp".toList)
    (hhost : ':' ∉ host) (hne : toks ≠ [])
    (hwf : ∀ t ∈ toks, t.wellFormed = true) (hfit : ∀ t ∈ toks, t.fits64 = true) :
    parseAddr (proto ++ ':' :: (host ++ ':' :: renderPorts toks)) =
      .ok { connType := proto, addr := expandAll host toks,
            abstract := HasPrefix host ['@'] } := by
  have hp : ':' ∉ proto := by rcases hproto with h | h <;> subst h <;> decide
  have hu : proto ≠ "unix".toList := by rcases hproto with h | h <;> subst h <;> decide
  have hf := SplitN_two ':' proto (host ++ ':' :: renderPorts toks) hp
  have ha := SplitN_two ':' host (renderPorts toks) hhost
  have hports : SplitN (renderPorts toks) ',' (-1) = toks.map PortToken.render := by
    apply SplitN_all ',' (toks.map PortToken.render) (by simpa using hne)
    intro x hx
    obtain ⟨t, ht, rfl⟩ := List.mem_map.mp hx
    exact render_no_comma t (hwf t ht)
  have hloop := portsLoop_tokens host toks [] hwf hfit
  simp only [parseAddr, hf, ha, hports, hloop, List.getElem?_cons_zero, List.getElem?_cons_succ,
    if_neg hu, HasPrefix_host, List.length_cons, List.length_nil, List.nil_append]
  simp

/-- Witness of `parseAddr_port_list`: `tcp:h:8000-8002,9`. -/
theorem parseAddr_port_list_witness :
    parseAddr "tcp:h:8000-8002,9".toList =
      .ok { connType := "tcp".toList,
            addr := ["h:8000".toList, "h:8001".toList, "h:8002".toList, "h:9".toList],
            abstract := false } :=
  parseAddr_port_list "tcp".toList "h".toList
    [.range "8000".toList "8002".toList, .single "9".toList]
    (Or.inl rfl) (by decide) (by decide) (by decide) (by decide)

/-- C1 as stated fails outside `int64`: the well-formed token `9223372036854775808` makes
`parseAddr` return the range error of `strconv.ParseInt`, and for the well-formed range
`0-9223372036854775807` the size `M - N + 1` wraps to a negative number, so that
`parseAddr` returns no address where the claim lists `2^63`. -/
theorem parseAddr_port_list_int64_counterexample :
    (PortToken.single "9223372036854775808".toList).wellFormed = true ∧
    parseAddr ("tcp".toList ++ ':' :: ("h".toList ++ ':' ::
        renderPorts [.single "9223372036854775808".toList])) =
      .err (.numRange "9223372036854775808".toList) ∧
    (PortToken.range "0".toList "9223372036854775807".toList).wellFormed = true ∧
    parseAddr ("tcp".toList ++ ':' :: ("h".toList ++ ':' ::
        renderPorts [.range "0".toList "9223372036854775807".toList])) =
      .ok { connType := "tcp".toList, addr := [], abstract := false } ∧
    (expandAll "h".toList [.range "0".toList "9223372036854775807".toList]).length
      = 2 ^ 63 := by
  refine ⟨by decide, by decide, by decide, by decide, ?_⟩
  have hv : decimalValue "9223372036854775807".toList = 9223372036854775807 := by decide
  have h0 : decimalValue "0".toList = 0 := by decide
  simp only [expandAll, PortToken.expand, List.map_cons, List.map_nil, List.flatten_cons,
    List.flatten_nil, List.append_nil, List.length_map, List.length_range', hv, h0]
  norm_num

theorem wrap64_inRange (x : Int) (h0 : -(2 ^ 63) ≤ x) (h1 : x < 2 ^ 63) : wrap64 x = x := by
  unfold wrap64
  norm_num at h0 h1 ⊢
  omega

/-- Every range whose end is smaller than its base is accepted with a size that is not
positive, and contributes no address. -/
theorem parsePortRange_inverted (host n m : Str) (hn : isDecimal n = true)
    (hm : isDecimal m = true) (hlt : decimalValue m < decimalValue n)
    (hfit : decimalValue n < 2 ^ 63) :
    parsePortRange (n ++ '-' :: m) =
      .ok ((decimalValue n : Int), (decimalValue m : Int) - (decimalValue n : Int) + 1) ∧
    expandPorts host (decimalValue n : Int)
      ((decimalValue m : Int) - (decimalValue n : Int) + 1) = [] := by
  have hs := Split_pair '-' n m (decimal_no_sep n hn).1 (decimal_no_sep m hm).1
  have hmlt : decimalValue m < 2 ^ 63 := lt_trans hlt hfit
  have h1 : wrap64 ((decimalValue m : Int) - (decimalValue n : Int)) =
      (decimalValue m : Int) - (decimalValue n : Int) :=
    wrap64_inRange _ (by omega) (by omega)
  have h2 : wrap64 ((decimalValue m : Int) - (decimalValue n : Int) + 1) =
      (decimalValue m : Int) - (decimalValue n : Int) + 1 :=
    wrap64_inRange _ (by omega) (by omega)
  have h3 : ((decimalValue m : Int) - (decimalValue n : Int) + 1).toNat = 0 := by omega
  constructor
  · simp [parsePortRange, hs, ParseInt_decimal n hn hfit, ParseInt_decimal m hm hmlt, h1, h2]
  · simp [expandPorts, h3]

/-- C2 (the code at the failing input): the range `8000-7999`, whose end is smaller than
its base, is not rejected; `parsePortRange` returns the size `0` and `parseAddr` returns a
descriptor with no address. -/
theorem parseAddr_inverted_range_accepted :
    parsePortRange "8000-7999".toList = .ok (8000, 0) ∧
    parseAddr "tcp:127.0.0.1:8000-7999".toList =
      .ok { connType := "tcp".toList, addr := [], abstract := false } := by
  constructor <;> decide

/-- C3 as stated fails: the protocol `foo` is not rejected. -/
theorem parseAddr_unknown_protocol_counterexample :
    parseAddr "foo:h:1".toList =
      .ok { connType := "foo".toList, addr := ["h:1".toList], abstract := false } := by
  decide

/-- C3 (amended): `parseAddr` does not look at the protocol beyond comparing it with
`unix`.  For a protocol that is none of tcp, udp, unix it returns what it returns for
`tcp:rest`, with the protocol recorded as given; it succeeds whenever `rest` has no colon. -/
theorem parseAddr_unknown_protocol (proto rest : Str) (hcolon : ':' ∉ proto)
    (hp : proto ≠ "tcp".toList ∧ proto ≠ "udp".toList ∧ proto ≠ "unix".toList) :
    parseAddr (proto ++ ':' :: rest) =
      (match parseAddr ("tcp".toList ++ ':' :: rest) with
        | .ok d => .ok { d with connType := proto }
        | .err e => .err e
        | .goPanic => .goPanic) ∧
    (':' ∉ rest → parseAddr (proto ++ ':' :: rest) =
      .ok { connType := proto, addr := [rest], abstract := HasPrefix rest ['@'] }) := by
  have hf := SplitN_two ':' proto rest hcolon
  have ht := SplitN_two ':' "tcp".toList rest (by decide)
  have hu : ("tcp".toList = "unix".toList) = False := by simp
  constructor
  · simp only [parseAddr, hf, ht, List.getElem?_cons_zero, List.getElem?_cons_succ,
      if_neg hp.2.2, hu, if_false]
    split_ifs
    · rfl
    · split
      · split <;> simp_all
      · simp_all
  · intro hrest
    have ha := SplitN_two_absent ':' rest hrest
    simp [parseAddr, hf, ha, hp.2.2]

/-- Witness of `parseAddr_unknown_protocol`: the protocol `foo` with `h:1-2`. -/
theorem parseAddr_unknown_protocol_witness :
    parseAddr ("foo".toList ++ ':' :: "h:1-2".toList) =
      (match parseAddr ("tcp".toList ++ ':' :: "h:1-2".toList) with
        | .ok d => .ok { d with connType := "foo".toList }
        | .err e => .err e
        | .goPanic => .goPanic) :=
  (parseAddr_unknown_protocol "foo".toList "h:1-2".toList (by decide)
    ⟨by decide, by decide, by decide⟩).1

/-! ## The positional arguments of `Run` -/

/-- `Run` takes six positional arguments (listen PID, listen address, connect PID, connect
address, log path, pid path); the eight arguments that the usage line `cmd.Use` lists, with
`<fd>` and `<reexec>` before the log path, are refused as "Missing required arguments". -/
theorem runArgs_usage_line_refused :
    runArgs 0 ["1".toList, "tcp:0.0.0.0:80".toList, "1".toList, "tcp:127.0.0.1:8080".toList,
      "/tmp/log".toList, "/tmp/pid".toList] = none ∧
    runArgs 0 ["1".toList, "tcp:0.0.0.0:80".toList, "1".toList, "tcp:127.0.0.1:8080".toList,
      "3".toList, "0".toList, "/tmp/log".toList, "/tmp/pid".toList] =
      some (.err .missingArguments) := by
  constructor <;> decide

/-! ## The port-mapping validation -/

theorem parseAddr_unix_one_address (s : Str) (d : proxyAddress) (h : parseAddr s = .ok d)
    (hu : d.connType = "unix".toList) : d.addr.length = 1 := by
  unfold parseAddr at h
  dsimp only at h
  split at h
  · rename_i f0 f1 _ _
    split_ifs at h with h1 h2
    · cases h
      rfl
    · cases h
      exact absurd hu h1
    · split at h
      · split at h
        · cases h
        · cases h
        · cases h
          exact absurd hu h1
      · cases h
  · cases h

/-- C4 as stated fails: with the listen spec `unix:/tmp/a.sock` (one address) and the
connect spec `udp:127.0.0.1:53-54` (two addresses) the guard of the validation is false,
the validation is skipped and `Run` goes on. -/
theorem checkPortMapping_unix_udp_counterexample :
    runSetup "unix:/tmp/a.sock".toList "udp:127.0.0.1:53-54".toList =
      .ok ({ connType := "unix".toList, addr := ["/tmp/a.sock".toList], abstract := false },
           { connType := "udp".toList,
             addr := ["127.0.0.1:53".toList, "127.0.0.1:54".toList], abstract := false }) := by
  decide

/-- C4 (amended): for parsed listen and connect specs with protocols among tcp, udp and
unix, with `L` listen and `C` connect addresses, the validation of `Run` rejects when
`L = 1` and `C > 1` unless the listen protocol is unix and the connect protocol udp, and
when `L > 1`, `C > 1` and `L ≠ C`; it accepts when `L > 1`, `C > 1` and `L = C`, when
`C = 1`, and always when the listen protocol is unix and the connect protocol udp. -/
theorem checkPortMapping_rule (listenAddr connectAddr : Str) (lAddr cAddr : proxyAddress)
    (hl : parseAddr listenAddr = .ok lAddr) (hc : parseAddr connectAddr = .ok cAddr)
    (hlp : lAddr.connType = "tcp".toList ∨ lAddr.connType = "udp".toList
      ∨ lAddr.connType = "unix".toList)
    (hcp : cAddr.connType = "tcp".toList ∨ cAddr.connType = "udp".toList
      ∨ cAddr.connType = "unix".toList) :
    (lAddr.addr.length = 1 ∧ cAddr.addr.length > 1
        ∧ ¬ (lAddr.connType = "unix".toList ∧ cAddr.connType = "udp".toList) →
      checkPortMapping lAddr cAddr = some .invalidPortMapping) ∧
    (lAddr.addr.length > 1 ∧ cAddr.addr.length > 1
        ∧ lAddr.addr.length ≠ cAddr.addr.length →
      checkPortMapping lAddr cAddr = some .invalidPortMapping) ∧
    (lAddr.addr.length > 1 ∧ cAddr.addr.length > 1
        ∧ lAddr.addr.length = cAddr.addr.length →
      checkPortMapping lAddr cAddr = none) ∧
    (cAddr.addr.length = 1 → checkPortMapping lAddr cAddr = none) ∧
    (lAddr.connType = "unix".toList ∧ cAddr.connType = "udp".toList →
      checkPortMapping lAddr cAddr = none) := by
  have hlu := parseAddr_unix_one_address listenAddr lAddr hl
  have hcu := parseAddr_unix_one_address connectAddr cAddr hc
  have htu : "tcp".toList ≠ "udp".toList := by decide
  have htx : "tcp".toList ≠ "unix".toList := by decide
  have hux : "udp".toList ≠ "unix".toList := by decide
  refine ⟨?_, ?_, ?_, ?_, ?_⟩
  · rintro ⟨h1, h2, h3⟩
    have hcx : cAddr.connType ≠ "unix".toList := fun e => by
      have := hcu e
      omega
    have hg : ((lAddr.connType = "udp".toList ∨ lAddr.connType = "tcp".toList)
        ∧ cAddr.connType = "udp".toList) ∨ cAddr.connType = "tcp".toList := by
      rcases hcp with e | e | e
      · exact Or.inr e
      · rcases hlp with e2 | e2 | e2
        · exact Or.inl ⟨Or.inr e2, e⟩
        · exact Or.inl ⟨Or.inl e2, e⟩
        · exact absurd ⟨e2, e⟩ h3
      · exact absurd e hcx
    have hn : ¬ (lAddr.addr.length > 1 ∧ cAddr.addr.length > 1
        ∧ cAddr.addr.length ≠ lAddr.addr.length) := by omega
    simp only [checkPortMapping, if_pos hg, if_neg hn, if_pos (And.intro h1 h2)]
  · rintro ⟨h1, h2, h3⟩
    have hcx : cAddr.connType ≠ "unix".toList := fun e => by
      have := hcu e
      omega
    have hlx : lAddr.connType ≠ "unix".toList := fun e => by
      have := hlu e
      omega
    have hg : ((lAddr.connType = "udp".toList ∨ lAddr.connType = "tcp".toList)
        ∧ cAddr.connType = "udp".toList) ∨ cAddr.connType = "tcp".toList := by
      rcases hcp with e | e | e
      · exact Or.inr e
      · rcases hlp with e2 | e2 | e2
        · exact Or.inl ⟨Or.inr e2, e⟩
        · exact Or.inl ⟨Or.inl e2, e⟩
        · exact absurd e2 hlx
      · exact absurd e hcx
    have hy : lAddr.addr.length > 1 ∧ cAddr.addr.length > 1
        ∧ cAddr.addr.length ≠ lAddr.addr.length := ⟨h1, h2, fun e => h3 e.symm⟩
    simp only [checkPortMapping, if_pos hg, if_pos hy]
  · rintro ⟨h1, h2, h3⟩
    have hn : ¬ (lAddr.addr.length > 1 ∧ cAddr.addr.length > 1
        ∧ cAddr.addr.length ≠ lAddr.addr.length) := by omega
    have hn2 : ¬ (lAddr.addr.length = 1 ∧ cAddr.addr.length > 1) := by omega
    simp only [checkPortMapping, if_neg hn, if_neg hn2, ite_self]
  · intro h1
    have hn : ¬ (lAddr.addr.length > 1 ∧ cAddr.addr.length > 1
        ∧ cAddr.addr.length ≠ lAddr.addr.length) := by omega
    have hn2 : ¬ (lAddr.addr.length = 1 ∧ cAddr.addr.length > 1) := by omega
    simp only [checkPortMapping, if_neg hn, if_neg hn2, ite_self]
  · rintro ⟨h1, h2⟩
    have hg : ¬ (((lAddr.connType = "udp".toList ∨ lAddr.connType = "tcp".toList)
        ∧ cAddr.connType = "udp".toList) ∨ cAddr.connType = "tcp".toList) := by
      rw [h1, h2]
      decide
    simp only [checkPortMapping, if_neg hg]

/-- Witness of `checkPortMapping_rule`: listen `tcp:0.0.0.0:9000-9001`, connect
`tcp:127.0.0.1:9100-9101`, two addresses each, accepted. -/
theorem checkPortMapping_rule_witness :
    checkPortMapping
      { connType := "tcp".toList, addr := ["0.0.0.0:9000".toList, "0.0.0.0:9001".toList],
        abstract := false }
      { connType := "tcp".toList, addr := ["127.0.0.1:9100".toList, "127.0.0.1:9101".toList],
        abstract := false } = none :=
  (checkPortMapping_rule "tcp:0.0.0.0:9000-9001".toList "tcp:127.0.0.1:9100-9101".toList
    _ _ (by decide) (by decide) (Or.inl rfl) (Or.inl rfl)).2.2.1
    ⟨by decide, by decide, by decide⟩

/-! ## The listener registry -/

theorem mem_mapSet (m : List (Nat × lStruct)) (key : Nat) (v : lStruct) (e : Nat × lStruct)
    (h : e ∈ mapSet m key v) : e ∈ m ∨ e = (key, v) := by
  induction m with
  | nil =>
    simp only [mapSet, List.mem_singleton] at h
    exact Or.inr h
  | cons x rest ih =>
    obtain ⟨k, y⟩ := x
    simp only [mapSet] at h
    split_ifs at h with hk
    · rcases List.mem_cons.mp h with h1 | h1
      · exact Or.inr h1
      · exact Or.inl (List.mem_cons_of_mem _ h1)
    · rcases List.mem_cons.mp h with h1 | h1
      · exact Or.inl (h1 ▸ List.mem_cons_self _ _)
      · rcases ih h1 with h2 | h2
        · exact Or.inl (List.mem_cons_of_mem _ h2)
        · exact Or.inr h2

theorem mapSet_ne_nil (m : List (Nat × lStruct)) (key : Nat) (v : lStruct) :
    mapSet m key v ≠ [] := by
  cases m with
  | nil => simp [mapSet]
  | cons x rest =>
    obtain ⟨k, y⟩ := x
    simp only [mapSet]
    split_ifs <;> simp

theorem mapGet_mem (m : List (Nat × lStruct)) (key : Nat) (v : lStruct)
    (h : mapGet m key = some v) : (key, v) ∈ m := by
  induction m with
  | nil => simp [mapGet] at h
  | cons x rest ih =>
    obtain ⟨k, y⟩ := x
    simp only [mapGet] at h
    split_ifs at h with hk
    · cases h
      exact hk ▸ List.mem_cons_self _ _
    · exact List.mem_cons_of_mem _ (ih h)

/-- Every registry entry carries a listen-address index below the number of files, a nil
`udpConn`, and for stream listeners a non-nil `lConn`. -/
theorem fillListenerMap_entries (isUDPListener : Bool) (fileListener : Nat → Bool)
    (files : List Nat) (i : Nat) (m r : List (Nat × lStruct))
    (h : fillListenerMap isUDPListener fileListener i files m = .ok r)
    (hm : ∀ e ∈ m, e.2.lAddrIndex < i ∧ e.2.udpConn = none
      ∧ (isUDPListener = false → e.2.lConn ≠ none)) :
    ∀ e ∈ r, e.2.lAddrIndex < i + files.length ∧ e.2.udpConn = none
      ∧ (isUDPListener = false → e.2.lConn ≠ none) := by
  induction files generalizing i m with
  | nil =>
    simp only [fillListenerMap, Result.ok.injEq] at h
    subst h
    simpa using hm
  | cons f rest ih =>
    simp only [fillListenerMap] at h
    have hstep : ∀ v : lStruct, v.lAddrIndex = i → v.udpConn = none →
        (isUDPListener = false → v.lConn ≠ none) →
        ∀ e ∈ mapSet m f v, e.2.lAddrIndex < i + 1 ∧ e.2.udpConn = none
          ∧ (isUDPListener = false → e.2.lConn ≠ none) := by
      intro v hv1 hv2 hv3 e he
      rcases mem_mapSet m f v e he with h1 | h1
      · have := hm e h1
        exact ⟨by omega, this.2.1, this.2.2⟩
      · subst h1
        exact ⟨by simp only; omega, hv2, hv3⟩
    have hlen : i + (f :: rest).length = i + 1 + rest.length := by
      simp only [List.length_cons]
      omega
    rw [hlen]
    split_ifs at h with hu hf
    · exact ih (i + 1) _ h (hstep _ rfl rfl (fun hc => by simp [hu] at hc))
    · exact ih (i + 1) _ h (hstep _ rfl rfl (fun _ => by simp))

theorem fillListenerMap_ne_nil (isUDPListener : Bool) (fileListener : Nat → Bool)
    (files : List Nat) (i : Nat) (m r : List (Nat × lStruct))
    (h : fillListenerMap isUDPListener fileListener i files m = .ok r)
    (hne : files ≠ [] ∨ m ≠ []) : r ≠ [] := by
  induction files generalizing i m with
  | nil =>
    simp only [fillListenerMap, Result.ok.injEq] at h
    subst h
    simpa using hne
  | cons f rest ih =>
    simp only [fillListenerMap] at h
    split_ifs at h with hu hf
    · exact ih (i + 1) _ h (Or.inr (mapSet_ne_nil _ _ _))
    · exact ih (i + 1) _ h (Or.inr (mapSet_ne_nil _ _ _))

/-! ## The connect address of `listenerInstance` -/

theorem runSetup_ok (listenAddr connectAddr : Str) (lAddr cAddr : proxyAddress)
    (h : runSetup listenAddr connectAddr = .ok (lAddr, cAddr)) :
    parseAddr listenAddr = .ok lAddr ∧ parseAddr connectAddr = .ok cAddr
      ∧ checkPortMapping lAddr cAddr = none := by
  cases hla : parseAddr listenAddr with
  | err e => simp [runSetup, hla] at h
  | goPanic => simp [runSetup, hla] at h
  | ok la =>
    cases hca : parseAddr connectAddr with
    | err e => simp [runSetup, hla, hca] at h
    | goPanic => simp [runSetup, hla, hca] at h
    | ok ca =>
      cases hchk : checkPortMapping la ca with
      | some e => simp [runSetup, hla, hca, hchk] at h
      | none =>
        simp only [runSetup, hla, hca, hchk, Result.ok.injEq, Prod.mk.injEq] at h
        obtain ⟨h1, h2⟩ := h
        subst h1 h2
        exact ⟨rfl, rfl, hchk⟩

theorem indexAddr_lt (addr : List Str) (i : Nat) (h : i < addr.length) :
    ∃ a, addr[i]? = some a ∧ indexAddr addr i = .ok a := by
  refine ⟨addr[i], List.getElem?_eq_getElem h, ?_⟩
  simp [indexAddr, List.getElem?_eq_getElem h]

/-- A listener index is inside a connect address list of more than one address, for
configurations that passed the validation of `Run`. -/
theorem lAddrIndex_lt_connect (lAddr cAddr : proxyAddress) (i : Nat)
    (hlp : lAddr.connType = "tcp".toList ∨ lAddr.connType = "udp".toList
      ∨ lAddr.connType = "unix".toList)
    (hcp : cAddr.connType = "tcp".toList ∨ cAddr.connType = "udp".toList
      ∨ cAddr.connType = "unix".toList)
    (hlu : lAddr.connType = "unix".toList → lAddr.addr.length = 1)
    (hcu : cAddr.connType = "unix".toList → cAddr.addr.length = 1)
    (hchk : checkPortMapping lAddr cAddr = none)
    (hi : i < lAddr.addr.length) (hC : cAddr.addr.length > 1) :
    i < cAddr.addr.length := by
  by_cases hlx : lAddr.connType = "unix".toList
  · have := hlu hlx
    omega
  · have hcx : cAddr.connType ≠ "unix".toList := fun e => by
      have := hcu e
      omega
    have hg : ((lAddr.connType = "udp".toList ∨ lAddr.connType = "tcp".toList)
        ∧ cAddr.connType = "udp".toList) ∨ cAddr.connType = "tcp".toList := by
      rcases hcp with e | e | e
      · exact Or.inr e
      · rcases hlp with e2 | e2 | e2
        · exact Or.inl ⟨Or.inr e2, e⟩
        · exact Or.inl ⟨Or.inl e2, e⟩
        · exact absurd e2 hlx
      · exact absurd e hcx
    simp only [checkPortMapping, if_pos hg] at hchk
    split_ifs at hchk with h1 h2
    omega

/-- The part of C5 that holds: for a configuration that passed the validation of `Run`
and whose connect endpoint has at least one address, and for a listener found in the
registry, `listenerInstance` dials the only connect address when there is exactly one,
and otherwise the connect address at the listener index, which is inside the list. -/
theorem listenerInstance_connect_address (listenAddr connectAddr : Str)
    (lAddr cAddr : proxyAddress) (fileListener : Nat → Bool) (files : List Nat)
    (registry : List (Nat × lStruct)) (fd : Nat) (l : lStruct)
    (hsetup : runSetup listenAddr connectAddr = .ok (lAddr, cAddr))
    (hlp : lAddr.connType = "tcp".toList ∨ lAddr.connType = "udp".toList
      ∨ lAddr.connType = "unix".toList)
    (hcp : cAddr.connType = "tcp".toList ∨ cAddr.connType = "udp".toList
      ∨ cAddr.connType = "unix".toList)
    (hfiles : files.length = lAddr.addr.length)
    (hreg : buildListenerMap lAddr fileListener files = .ok registry)
    (hget : mapGet registry fd = some l) :
    (∀ a, cAddr.addr = [a] → listenerInstance lAddr cAddr l true = .ok a) ∧
    (cAddr.addr.length > 1 → l.lAddrIndex < cAddr.addr.length ∧
      ∃ a, cAddr.addr[l.lAddrIndex]? = some a ∧
        listenerInstance lAddr cAddr l true = .ok a) := by
  obtain ⟨hl, hc, hchk⟩ := runSetup_ok listenAddr connectAddr lAddr cAddr hsetup
  have hlu := parseAddr_unix_one_address listenAddr lAddr hl
  have hcu := parseAddr_unix_one_address connectAddr cAddr hc
  have hent := fillListenerMap_entries _ fileListener files 0 [] registry hreg (by simp)
    (fd, l) (mapGet_mem registry fd l hget)
  simp only [zero_add, decide_eq_false_iff_not] at hent
  obtain ⟨hidx, -, hconn⟩ := hent
  rw [hfiles] at hidx
  have hlconn : lAddr.connType ≠ "udp".toList → ∃ c, l.lConn = some c := fun hne => by
    have := hconn hne
    cases hc2 : l.lConn with
    | none => exact absurd hc2 this
    | some c => exact ⟨c, rfl⟩
  constructor
  · intro a ha
    by_cases hudp : lAddr.connType = "udp".toList
    · simp only [listenerInstance, if_pos hudp, connectAddrUDP, indexAddr, ha,
        List.getElem?_cons_zero, List.length_singleton]
      simp
    · obtain ⟨c, hcs⟩ := hlconn hudp
      simp only [listenerInstance, if_neg hudp, hcs, connectAddrStream, indexAddr, ha,
        List.getElem?_cons_zero, List.length_singleton]
      simp
  · intro hC
    have hlt := lAddrIndex_lt_connect lAddr cAddr l.lAddrIndex hlp hcp hlu hcu hchk hidx hC
    refine ⟨hlt, ?_⟩
    obtain ⟨a, ha1, ha2⟩ := indexAddr_lt cAddr.addr l.lAddrIndex hlt
    obtain ⟨a0, ha01, ha02⟩ := indexAddr_lt cAddr.addr 0 (by omega)
    refine ⟨a, ha1, ?_⟩
    have hcx : cAddr.connType ≠ "unix".toList := fun e => by
      have := hcu e
      omega
    by_cases hudp : lAddr.connType = "udp".toList
    · simp only [listenerInstance, if_pos hudp, connectAddrUDP, ha02, if_pos hC, ha2]
    · obtain ⟨c, hcs⟩ := hlconn hudp
      by_cases hlx : lAddr.connType = "unix".toList
      · have h0 : l.lAddrIndex = 0 := by
          have := hlu hlx
          omega
        rw [h0] at ha1
        have haa : a0 = a := by
          rw [ha01] at ha1
          exact Option.some.inj ha1
        have hcond : ¬ (lAddr.connType ≠ "unix".toList ∧ cAddr.connType ≠ "unix".toList
            ∧ cAddr.addr.length > 1) := fun hh => hh.1 hlx
        simp only [listenerInstance, if_neg hudp, hcs, connectAddrStream, ha02, if_neg hcond,
          haa, if_true]
      · have hcond : lAddr.connType ≠ "unix".toList ∧ cAddr.connType ≠ "unix".toList
            ∧ cAddr.addr.length > 1 := ⟨hlx, hcx, hC⟩
        simp only [listenerInstance, if_neg hudp, hcs, connectAddrStream, ha02, if_pos hcond,
          ha2, if_true]

/-- C5 (the code at the failing input): the listen spec `tcp:0.0.0.0:9000` and the connect
spec `tcp:127.0.0.1:9100-9099` pass the parsing and the validation of `Run`, the connect
descriptor has no address, and for the one listener of the registry (index 0) both
branches of `listenerInstance` panic on `cAddr.addr[0]`. -/
theorem listenerInstance_empty_connect_panics :
    runSetup "tcp:0.0.0.0:9000".toList "tcp:127.0.0.1:9100-9099".toList =
      .ok ({ connType := "tcp".toList, addr := ["0.0.0.0:9000".toList], abstract := false },
           { connType := "tcp".toList, addr := [], abstract := false }) ∧
    buildListenerMap
        { connType := "tcp".toList, addr := ["0.0.0.0:9000".toList], abstract := false }
        (fun _ => true) [7] =
      .ok [(7, { f := none, lConn := some 7, udpConn := none, lAddrIndex := 0 })] ∧
    listenerInstance
        { connType := "tcp".toList, addr := ["0.0.0.0:9000".toList], abstract := false }
        { connType := "tcp".toList, addr := [], abstract := false }
        { f := none, lConn := some 7, udpConn := none, lAddrIndex := 0 } true = .goPanic ∧
    listenerInstance
        { connType := "udp".toList, addr := ["0.0.0.0:9000".toList], abstract := false }
        { connType := "udp".toList, addr := [], abstract := false }
        { f := some 7, lConn := none, udpConn := none, lAddrIndex := 0 } true = .goPanic := by
  refine ⟨by decide, by decide, by decide, by decide⟩

/-! ## Unix addresses -/

/-- C6 as stated fails: for `unix:@foo` the address keeps its leading `@`. -/
theorem parseAddr_unix_abstract_counterexample :
    parseAddr "unix:@foo".toList =
      .ok { connType := "unix".toList, addr := ["@foo".toList], abstract := true } ∧
    parseAddr "unix:@foo".toList ≠
      .ok { connType := "unix".toList, addr := ["foo".toList], abstract := true } := by
  constructor <;> decide

/-- C6 (amended): `parseAddr("unix:@" + p)` returns the protocol unix, the abstract flag
true and the single address `"@" + p`, the leading `@` kept; `parseAddr("unix:" + p)` for
`p` not starting with `@` returns the abstract flag false and the single address `p`. -/
theorem parseAddr_unix (p : Str) :
    parseAddr ("unix:@".toList ++ p) =
      .ok { connType := "unix".toList, addr := ['@' :: p], abstract := true } ∧
    (HasPrefix p ['@'] = false →
      parseAddr ("unix:".toList ++ p) =
        .ok { connType := "unix".toList, addr := [p], abstract := false }) := by
  have h1 : "unix:@".toList ++ p = "unix".toList ++ ':' :: ('@' :: p) := rfl
  have h2 : "unix:".toList ++ p = "unix".toList ++ ':' :: p := rfl
  have hc : ':' ∉ "unix".toList := by decide
  constructor
  · rw [h1]
    simp only [parseAddr, SplitN_two ':' _ ('@' :: p) hc, List.getElem?_cons_zero,
      List.getElem?_cons_succ, if_true]
    have ha : HasPrefix ('@' :: p) ['@'] = true := by simp [HasPrefix, List.isPrefixOf]
    rw [ha]
  · intro hp
    rw [h2]
    simp only [parseAddr, SplitN_two ':' _ p hc, List.getElem?_cons_zero,
      List.getElem?_cons_succ, if_true, hp]

/-- Witness of `parseAddr_unix`: the path `/run/x.sock`. -/
theorem parseAddr_unix_witness :
    parseAddr ("unix:".toList ++ "/run/x.sock".toList) =
      .ok { connType := "unix".toList, addr := ["/run/x.sock".toList], abstract := false } :=
  (parseAddr_unix "/run/x.sock".toList).2 (by decide)

/-! ## The listen side of `Run` -/

/-- With the outer `err` nil, the loop of the listen side returns nil whenever every
listener is acquired, whatever the sends return. -/
theorem childLoop_nil (w : ChildWorld) (connType : Str) (addrs : List Str) (k : Nat)
    (hfile : ∀ j a, ∃ fd, w.getListenerFile j connType a = .ok fd) :
    childLoop w connType none k addrs = .ok () := by
  induction addrs generalizing k with
  | nil => rfl
  | cons a rest ih =>
    obtain ⟨fd, hfd⟩ := hfile k a
    simp only [childLoop, hfd]
    split_ifs
    · rfl
    · exact ih (k + 1)

/-- C7 (the code at the failing input): for the listen spec `tcp:127.0.0.1:80-81`, when
the first send over the handoff channel fails, or the second one, `Run` returns nil. -/
theorem runChild_send_failure_returns_nil :
    parseAddr "tcp:127.0.0.1:80-81".toList =
      .ok { connType := "tcp".toList, addr := ["127.0.0.1:80".toList, "127.0.0.1:81".toList],
            abstract := false } ∧
    (sendFailsAt 0).sendFd 0 10 = some .sendFailed ∧
    runChild (sendFailsAt 0)
      { connType := "tcp".toList, addr := ["127.0.0.1:80".toList, "127.0.0.1:81".toList],
        abstract := false } = .ok () ∧
    runChild (sendFailsAt 1)
      { connType := "tcp".toList, addr := ["127.0.0.1:80".toList, "127.0.0.1:81".toList],
        abstract := false } = .ok () := by
  refine ⟨by decide, by decide, by decide, by decide⟩

/-! ## The SIGTERM handler -/

theorem closeRegistry_stream (m : List (Nat × lStruct)) (h : ∀ e ∈ m, e.2.lConn ≠ none) :
    (closeRegistry false m).2 = true ∧ (closeRegistry false m).1.length = m.length := by
  induction m with
  | nil => simp [closeRegistry]
  | cons x rest ih =>
    obtain ⟨k, l⟩ := x
    have hl := h (k, l) (List.mem_cons_self _ _)
    have hrest := ih (fun e he => h e (List.mem_cons_of_mem _ he))
    cases hc : l.lConn with
    | none => exact absurd hc hl
    | some c => simp [closeRegistry, hc, hrest.1, hrest.2]

theorem closeRegistry_udp_nil (m : List (Nat × lStruct)) (hne : m ≠ [])
    (h : ∀ e ∈ m, e.2.udpConn = none) : closeRegistry true m = ([], false) := by
  cases m with
  | nil => exact absurd rfl hne
  | cons x rest =>
    obtain ⟨k, l⟩ := x
    have hl : l.udpConn = none := h (k, l) (List.mem_cons_self _ _)
    simp [closeRegistry, hl]

/-- For a stream listen protocol the handler closes every file, the epoll instance and
every registry entry, and ends with the kill. -/
theorem sigtermHandler_stream_reaches_kill (lAddr : proxyAddress) (fileListener : Nat → Bool)
    (files : List Nat) (registry : List (Nat × lStruct))
    (hreg : buildListenerMap lAddr fileListener files = .ok registry)
    (hs : lAddr.connType ≠ "udp".toList) :
    sigtermHandler false files registry =
      closeFiles files ++ [Action.closeEpoll] ++ (closeRegistry false registry).1
        ++ [Action.kill] ∧
    (closeRegistry false registry).1.length = registry.length := by
  have hd : decide (lAddr.connType = "udp".toList) = false := by simpa using hs
  rw [buildListenerMap, hd] at hreg
  have hent := fillListenerMap_entries false fileListener files 0 [] registry hreg (by simp)
  have hc := closeRegistry_stream registry (fun e he => (hent e he).2.2 rfl)
  simp [sigtermHandler, hc.1, hc.2]

/-- For the udp listen protocol and at least one listen address the handler stops at the
first registry entry: it closes no entry and never reaches the kill. -/
theorem sigtermHandler_udp_no_kill (lAddr : proxyAddress) (fileListener : Nat → Bool)
    (files : List Nat) (registry : List (Nat × lStruct))
    (hreg : buildListenerMap lAddr fileListener files = .ok registry)
    (hu : lAddr.connType = "udp".toList) (hne : files ≠ []) :
    sigtermHandler true files registry = closeFiles files ++ [Action.closeEpoll] := by
  have hd : decide (lAddr.connType = "udp".toList) = true := by simpa using hu
  rw [buildListenerMap, hd] at hreg
  have hent := fillListenerMap_entries true fileListener files 0 [] registry hreg (by simp)
  have hnn := fillListenerMap_ne_nil true fileListener files 0 [] registry hreg (Or.inl hne)
  have hc := closeRegistry_udp_nil registry hnn (fun e he => (hent e he).2.1)
  simp [sigtermHandler, hc]

/-- C8 (the code at the failing input): for the listen spec `udp:127.0.0.1:53` the
registry entry `Run` builds has a nil `udpConn`; the handler deregisters and closes the
file, closes the epoll instance, and stops at the dereference of `udpConn`, before any
registry entry is closed and before the kill. -/
theorem sigtermHandler_udp_stops_before_kill :
    parseAddr "udp:127.0.0.1:53".toList =
      .ok { connType := "udp".toList, addr := ["127.0.0.1:53".toList], abstract := false } ∧
    buildListenerMap
        { connType := "udp".toList, addr := ["127.0.0.1:53".toList], abstract := false }
        (fun _ => true) [5] =
      .ok [(5, { f := some 5, lConn := none, udpConn := none, lAddrIndex := 0 })] ∧
    sigtermHandler true [5]
        [(5, { f := some 5, lConn := none, udpConn := none, lAddrIndex := 0 })] =
      [.epollDel 5, .closeFile 5, .closeEpoll] := by
  refine ⟨by decide, by decide, by decide⟩

/-! ## `unixRelayer` -/

/-- The loop over the control messages assigns `fds` in every round, so that after it
`fds` holds the descriptors of the last control message. -/
theorem parseEntries_last (entries : List SocketControlMessage) (last : SocketControlMessage)
    (fds : Option (List Int))
    (h : ∀ m ∈ entries ++ [last], m.level = SOL_SOCKET ∧ m.type = SCM_RIGHTS) :
    parseEntries (entries ++ [last]) fds = .ok (some last.data) := by
  induction entries generalizing fds with
  | nil =>
    have hl := h last (by simp)
    simp [parseEntries, ParseUnixRights, hl.1, hl.2]
  | cons m rest ih =>
    have hm := h m (by simp)
    have hrest := ih (some m.data) (fun x hx => h x (by simp at hx ⊢; tauto))
    simp only [List.cons_append, parseEntries, ParseUnixRights, hm.1, hm.2, ne_eq,
      not_true_eq_false, if_false]
    exact hrest

theorem closeFds_all (closeOk : Int → Bool) (fds : List Int)
    (h : ∀ fd ∈ fds, closeOk fd = true) : closeFds closeOk fds = (fds, true) := by
  induction fds with
  | nil => rfl
  | cons fd rest ih =>
    have h1 : closeOk fd = true := h fd (by simp)
    have h2 := ih (fun x hx => h x (List.mem_cons_of_mem _ hx))
    simp [closeFds, h1, h2]

/-- C9: for every received message whose ancillary data parses into the control messages
the kernel delivers, all of them carrying file descriptors, once the message has been
forwarded with matching data and ancillary byte counts and with every `syscall.Close`
succeeding, the round closes every descriptor of every one of those control messages, in
order, and the relayer goes on. -/
theorem unixRelayerRound_closes_all (m : RelayedMessage) (es : List SocketControlMessage)
    (hentries : m.entries = some es)
    (hkernel : kernelDelivered es)
    (hoob : es ≠ [] → 0 < m.sOob)
    (hwritten : m.written = some (m.sData, m.sOob))
    (hclose : ∀ e ∈ es, ∀ fd ∈ e.data, m.closeOk fd = true) :
    unixRelayerRound m =
      { forwarded := true, closed := (es.map (fun e => e.data)).flatten, goesOn := true } := by
  obtain ⟨hlen, hrights⟩ := hkernel
  cases es with
  | nil =>
    by_cases hpos : m.sOob > 0
    · simp [unixRelayerRound, hentries, hwritten, hpos, parseEntries]
    · simp [unixRelayerRound, hwritten, hpos]
  | cons e tl =>
    have htl : tl = [] := by
      cases tl with
      | nil => rfl
      | cons x xs => simp at hlen
    subst htl
    have hpos : m.sOob > 0 := hoob (by simp)
    have hr := hrights e (by simp)
    have hc := closeFds_all m.closeOk e.data (hclose e (by simp))
    simp [unixRelayerRound, hentries, hwritten, hpos, parseEntries, ParseUnixRights,
      hr.1, hr.2, hc]

/-- Witness of `unixRelayerRound_closes_all`: one control message with the descriptors 3
and 4; both are closed. -/
theorem unixRelayerRound_closes_all_witness :
    unixRelayerRound rightsMessage =
      { forwarded := true, closed := [3, 4], goesOn := true } :=
  unixRelayerRound_closes_all rightsMessage
    [{ level := SOL_SOCKET, type := SCM_RIGHTS, data := [3, 4] }]
    rfl ⟨by decide, by decide⟩ (fun _ => by decide) rfl (fun _ _ _ _ => rfl)

/-! ## `genericRelay` -/

theorem genericRelayStep_inv (s t : RelayState) (e : RelayEvent) (h : relayInv s)
    (hs : genericRelayStep s e = some t) : relayInv t := by
  obtain ⟨sd, rd, pc, es, er, sc, dc⟩ := s
  cases e with
  | copyEnds d err =>
    cases d <;> cases sd <;> cases rd <;> cases pc <;>
      simp_all [genericRelayStep, relayInv] <;> subst hs <;> simp_all
  | handOver d =>
    cases d <;> cases sd <;> cases rd <;> cases pc <;>
      simp_all [genericRelayStep, relayInv] <;> (subst hs; simp_all)
  | mainStep =>
    cases pc <;> simp_all [genericRelayStep, relayInv] <;> (subst hs; simp_all)

theorem genericRelayRun_inv (evs : List RelayEvent) (s t : RelayState) (h : relayInv s)
    (hr : genericRelayRun s evs = some t) : relayInv t := by
  induction evs generalizing s with
  | nil =>
    simp only [genericRelayRun, Option.some.injEq] at hr
    exact hr ▸ h
  | cons e rest ih =>
    simp only [genericRelayRun] at hr
    split at hr
    · cases hr
    · rename_i u hu
      exact ih u (genericRelayStep_inv s u e h hu) hr

theorem genericRelayStep_recvCopying (s t : RelayState) (e : RelayEvent) (h : recvCopying s)
    (he : ∀ err, e ≠ .copyEnds .recv err) (hs : genericRelayStep s e = some t) : recvCopying t := by
  obtain ⟨sd, rd, pc, es, er, sc, dc⟩ := s
  obtain ⟨h1, h2, h3, h4⟩ := h
  simp only at h1 h2 h3 h4
  subst h1 h2 h3
  cases e with
  | copyEnds d err =>
    cases d
    · cases sd
      all_goals simp_all [genericRelayStep, recvCopying]
      all_goals (subst hs; simp_all)
    · exact absurd rfl (he err)
  | handOver d =>
    cases d <;> cases sd <;> rcases h4 with h4 | h4 <;> subst h4
    all_goals simp_all [genericRelayStep, recvCopying]
    all_goals (subst hs; simp_all)
  | mainStep =>
    rcases h4 with h4 | h4 <;> subst h4 <;> simp_all [genericRelayStep]

theorem genericRelayRun_recvCopying (evs : List RelayEvent) (s t : RelayState) (h : recvCopying s)
    (he : ∀ e ∈ evs, ∀ err, e ≠ .copyEnds .recv err) (hr : genericRelayRun s evs = some t) :
    recvCopying t := by
  induction evs generalizing s with
  | nil =>
    simp only [genericRelayRun, Option.some.injEq] at hr
    exact hr ▸ h
  | cons e rest ih =>
    simp only [genericRelayRun] at hr
    split at hr
    · cases hr
    · rename_i u hu
      exact ih u (genericRelayStep_recvCopying s u e h (he e (by simp)) hu)
        (fun x hx => he x (List.mem_cons_of_mem _ hx)) hr

/-- C10 as stated fails: after the send direction has ended while the receive direction
still copies, no run in which the receive direction does not end performs `src.Close()`
or `dst.Close()`. -/
theorem genericRelay_waits_for_both_counterexample :
    genericRelayRun RelayState.init [.copyEnds .send none] = some sendEndedFirst ∧
    sendEndedFirst.sendDir.ended = true ∧ sendEndedFirst.recvDir.ended = false ∧
    ∀ (evs : List RelayEvent) (s : RelayState),
      (∀ e ∈ evs, ∀ err, e ≠ .copyEnds .recv err) →
      genericRelayRun sendEndedFirst evs = some s → s.srcClosed = false ∧ s.dstClosed = false := by
  refine ⟨by decide, by decide, by decide, ?_⟩
  intro evs s he hr
  have h0 : recvCopying sendEndedFirst := by
    simp [recvCopying, sendEndedFirst]
  have h := genericRelayRun_recvCopying evs sendEndedFirst s h0 he hr
  exact ⟨h.2.1, h.2.2.1⟩

theorem genericRelayStep_ended (s t : RelayState) (e : RelayEvent)
    (h1 : s.sendDir.ended = true) (h2 : s.recvDir.ended = true)
    (hs : genericRelayStep s e = some t) :
    t.sendDir.ended = true ∧ t.recvDir.ended = true := by
  obtain ⟨sd, rd, pc, es, er, sc, dc⟩ := s
  cases e with
  | copyEnds d err =>
    cases d <;> cases sd <;> cases rd <;> simp_all [genericRelayStep, Relayer.ended]
  | handOver d =>
    cases d <;> cases sd <;> cases rd <;> cases pc
    all_goals simp_all [genericRelayStep, Relayer.ended]
    all_goals (subst hs; simp_all)
  | mainStep =>
    cases pc
    all_goals simp_all [genericRelayStep, Relayer.ended]
    all_goals (subst hs; simp_all)

/-- Once both copies have ended at most one step is enabled: the goroutines no longer
race. -/
theorem genericRelayStep_deterministic (s t1 t2 : RelayState) (e1 e2 : RelayEvent)
    (h1 : s.sendDir.ended = true) (h2 : s.recvDir.ended = true)
    (hs1 : genericRelayStep s e1 = some t1) (hs2 : genericRelayStep s e2 = some t2) :
    e1 = e2 := by
  obtain ⟨sd, rd, pc, es, er, sc, dc⟩ := s
  cases e1 with
  | copyEnds d err =>
    cases d <;> cases sd <;> cases rd <;> simp_all [genericRelayStep, Relayer.ended]
  | handOver d =>
    cases e2 with
    | copyEnds d2 err =>
      cases d2 <;> cases sd <;> cases rd <;> simp_all [genericRelayStep, Relayer.ended]
    | handOver d2 =>
      cases d <;> cases d2 <;> cases sd <;> cases rd <;> cases pc <;>
        simp_all [genericRelayStep]
    | mainStep =>
      cases d <;> cases sd <;> cases rd <;> cases pc <;> simp_all [genericRelayStep]
  | mainStep =>
    cases e2 with
    | copyEnds d2 err =>
      cases d2 <;> cases sd <;> cases rd <;> simp_all [genericRelayStep, Relayer.ended]
    | handOver d2 =>
      cases d2 <;> cases sd <;> cases rd <;> cases pc <;> simp_all [genericRelayStep]
    | mainStep => rfl

theorem genericRelayStep_returned (s : RelayState) (e : RelayEvent)
    (h1 : s.sendDir.ended = true) (h2 : s.recvDir.ended = true) (hp : s.pc = .returned) :
    genericRelayStep s e = none := by
  obtain ⟨sd, rd, pc, es, er, sc, dc⟩ := s
  simp only at hp
  subst hp
  cases e with
  | copyEnds d err =>
    cases d <;> cases sd <;> cases rd <;> simp_all [genericRelayStep, Relayer.ended]
  | handOver d =>
    cases d <;> cases sd <;> cases rd <;> simp_all [genericRelayStep]
  | mainStep => simp [genericRelayStep]

/-- From a state in which both copies have ended, the remaining steps, none of them the end
of a copy, hand both errors over, perform `src.Close()` and `dst.Close()` and return. -/
theorem genericRelay_progress (s : RelayState) (hinv : relayInv s)
    (h1 : s.sendDir.ended = true) (h2 : s.recvDir.ended = true) :
    ∃ rest t, genericRelayRun s rest = some t ∧ t.pc = .returned
      ∧ t.srcClosed = true ∧ t.dstClosed = true := by
  obtain ⟨sd, rd, pc, es, er, sc, dc⟩ := s
  cases pc
  · cases sd <;> cases rd <;> simp_all [relayInv, Relayer.ended]
    exact ⟨[.handOver .send, .handOver .recv, .mainStep, .mainStep, .mainStep], _,
      rfl, rfl, rfl, rfl⟩
  · cases sd <;> cases rd <;> simp_all [relayInv, Relayer.ended]
    exact ⟨[.handOver .recv, .mainStep, .mainStep, .mainStep], _, rfl, rfl, rfl, rfl⟩
  · exact ⟨[.mainStep, .mainStep, .mainStep], _, rfl, rfl, rfl, rfl⟩
  · exact ⟨[.mainStep, .mainStep], _, rfl, rfl, by simp_all [relayInv], rfl⟩
  · exact ⟨[.mainStep], _, rfl, rfl, by simp_all [relayInv], by simp_all [relayInv]⟩
  · exact ⟨[], _, rfl, rfl, by simp_all [relayInv], by simp_all [relayInv]⟩

/-- Once both copies have ended, every run is an initial part of the run that ends with
the return. -/
theorem genericRelayRun_prefix (evs rest : List RelayEvent) (s t u : RelayState)
    (h1 : s.sendDir.ended = true) (h2 : s.recvDir.ended = true)
    (hrest : genericRelayRun s rest = some t) (hret : t.pc = .returned)
    (hevs : genericRelayRun s evs = some u) : evs <+: rest := by
  induction evs generalizing s rest with
  | nil => exact List.nil_prefix
  | cons e es ih =>
    simp only [genericRelayRun] at hevs
    cases hstep : genericRelayStep s e with
    | none => simp [hstep] at hevs
    | some s1 =>
      rw [hstep] at hevs
      cases rest with
      | nil =>
        simp only [genericRelayRun, Option.some.injEq] at hrest
        subst hrest
        rw [genericRelayStep_returned s e h1 h2 hret] at hstep
        cases hstep
      | cons e2 rs =>
        simp only [genericRelayRun] at hrest
        cases hstep2 : genericRelayStep s e2 with
        | none => simp [hstep2] at hrest
        | some s2 =>
          rw [hstep2] at hrest
          have he : e = e2 := genericRelayStep_deterministic s s1 s2 e e2 h1 h2 hstep hstep2
          subst he
          have hs12 : s1 = s2 := by
            rw [hstep] at hstep2
            exact Option.some.inj hstep2
          subst hs12
          have hend := genericRelayStep_ended s s1 e h1 h2 hstep
          have := ih rs s1 hend.1 hend.2 hrest hevs
          exact (List.cons_prefix_cons).mpr ⟨rfl, this⟩

/-- C10 (amended): in every state of every run of `genericRelay`, the receive from
`chRecv` has happened only after the one from `chSend`; `src.Close()` or `dst.Close()` has
been performed only after both copy directions have terminated and handed their error
over, `dst.Close()` only after `src.Close()`; and the call has returned only with both
connections closed.  Once both copies have ended the closes are performed: there is a
run from that state, the only one the goroutines can take, that hands both errors over,
performs `src.Close()` and `dst.Close()` and returns. -/
theorem genericRelay_closes_after_both (evs : List RelayEvent) (s : RelayState)
    (hr : genericRelayRun RelayState.init evs = some s) :
    (s.recvDir = .finished → s.sendDir = .finished) ∧
    (s.srcClosed = true ∨ s.dstClosed = true →
      s.sendDir = .finished ∧ s.recvDir = .finished) ∧
    (s.dstClosed = true → s.srcClosed = true) ∧
    (s.pc = .returned → s.srcClosed = true ∧ s.dstClosed = true) ∧
    (s.sendDir.ended = true → s.recvDir.ended = true →
      ∃ rest t, genericRelayRun s rest = some t ∧ t.pc = .returned
        ∧ t.srcClosed = true ∧ t.dstClosed = true
        ∧ ∀ evs2 u, genericRelayRun s evs2 = some u → evs2 <+: rest) := by
  have h0 : relayInv RelayState.init := by simp [relayInv, RelayState.init]
  have h := genericRelayRun_inv evs RelayState.init s h0 hr
  refine ⟨?_, ?_, ?_, ?_, ?_⟩
  · obtain ⟨sd, rd, pc, es, er, sc, dc⟩ := s
    cases pc <;> simp_all [relayInv]
  · obtain ⟨sd, rd, pc, es, er, sc, dc⟩ := s
    cases pc <;> simp_all [relayInv]
  · obtain ⟨sd, rd, pc, es, er, sc, dc⟩ := s
    cases pc <;> simp_all [relayInv]
  · obtain ⟨sd, rd, pc, es, er, sc, dc⟩ := s
    cases pc <;> simp_all [relayInv]
  · intro h1 h2
    obtain ⟨rest, t, hrun, hret, hsrc, hdst⟩ := genericRelay_progress s h h1 h2
    exact ⟨rest, t, hrun, hret, hsrc, hdst,
      fun evs2 u hu => genericRelayRun_prefix evs2 rest s t u h1 h2 hrun hret hu⟩

/-- Witness of `genericRelay_closes_after_both`: after both copies have ended, the receive
direction first and with an error, the run that hands both errors over and takes the three
steps of the main goroutine ends returned with both connections closed. -/
theorem genericRelay_closes_after_both_witness :
    genericRelayRun RelayState.init [.copyEnds .recv (some .ioError), .copyEnds .send none] =
      some (RelayState.mk (.sending none) (.sending (some .ioError)) .recvSend none none
        false false) ∧
    ∃ rest t,
      genericRelayRun (RelayState.mk (.sending none) (.sending (some .ioError)) .recvSend
        none none false false) rest = some t ∧ t.pc = .returned
        ∧ t.srcClosed = true ∧ t.dstClosed = true
        ∧ ∀ evs2 u, genericRelayRun (RelayState.mk (.sending none) (.sending (some .ioError))
            .recvSend none none false false) evs2 = some u → evs2 <+: rest :=
  ⟨by decide,
   (genericRelay_closes_after_both
      [.copyEnds .recv (some .ioError), .copyEnds .send none]
      (RelayState.mk (.sending none) (.sending (some .ioError)) .recvSend none none
        false false)
      (by decide)).2.2.2.2 rfl rfl⟩

/-! ## Totality of `parseAddr` -/

theorem splitLoop_ne_nil (sep : Char) (k : Nat) (s : Str) : splitLoop sep k s ≠ [] := by
  cases k with
  | zero => simp [splitLoop]
  | succ k =>
    simp only [splitLoop]
    split <;> simp

theorem Split_ne_nil (s : Str) (sep : Char) : Split s sep ≠ [] := by
  simp only [Split, SplitN, show ((-1 : Int) = 0) = False from by simp, if_false]
  exact splitLoop_ne_nil sep _ s

theorem ParseInt_no_panic (s : Str) : ParseInt s ≠ .goPanic := by
  unfold ParseInt
  split
  · simp
  · dsimp only
    split
    · simp
    · simp
    · split_ifs <;> simp

theorem parsePortRange_no_panic (r : Str) : parsePortRange r ≠ .goPanic := by
  unfold parsePortRange
  dsimp only
  cases he : Split r '-' with
  | nil => exact absurd he (Split_ne_nil r '-')
  | cons e0 tl =>
    split_ifs with h1 h2
    · simp
    · simp only [List.getElem?_cons_zero]
      cases hp : ParseInt e0 with
      | err e => simp
      | goPanic => exact absurd hp (ParseInt_no_panic e0)
      | ok base =>
        cases tl with
        | nil => simp at h2
        | cons e1 tl2 =>
          simp only [List.getElem?_cons_succ, List.getElem?_cons_zero]
          cases hq : ParseInt e1 with
          | err e => simp
          | goPanic => exact absurd hq (ParseInt_no_panic e1)
          | ok size => simp
    · simp only [List.getElem?_cons_zero]
      cases hp : ParseInt e0 with
      | err e => simp
      | goPanic => exact absurd hp (ParseInt_no_panic e0)
      | ok base => simp

theorem portsLoop_no_panic (host : Str) (ports acc : List Str) :
    portsLoop host ports acc ≠ .goPanic := by
  induction ports generalizing acc with
  | nil => simp [portsLoop]
  | cons port rest ih =>
    simp only [portsLoop]
    cases hp : parsePortRange port with
    | err e => simp
    | goPanic => exact absurd hp (parsePortRange_no_panic port)
    | ok v =>
      obtain ⟨first, size⟩ := v
      exact ih _

theorem mem_split_first (sep : Char) (s : Str) (h : sep ∈ s) :
    ∃ a b, s = a ++ sep :: b ∧ sep ∉ a := by
  induction s with
  | nil => simp at h
  | cons c cs ih =>
    by_cases hc : c = sep
    · exact ⟨[], cs, by simp [hc], by simp⟩
    · have hcs : sep ∈ cs := by
        rcases List.mem_cons.mp h with h1 | h1
        · exact absurd h1.symm hc
        · exact h1
      obtain ⟨a, b, hab, ha⟩ := ih hcs
      refine ⟨c :: a, b, by simp [hab], ?_⟩
      simp only [List.mem_cons, not_or]
      exact ⟨fun e => hc e.symm, ha⟩

/-- Every input without a colon makes `parseAddr` panic: `strings.SplitN` returns one
field and `fields[1]` is out of range. -/
theorem parseAddr_no_colon_panics (s : Str) (h : ':' ∉ s) : parseAddr s = .goPanic := by
  simp [parseAddr, SplitN_two_absent ':' s h]

/-- On every input with a colon `parseAddr` returns a descriptor or an error. -/
theorem parseAddr_colon_no_panic (s : Str) (h : ':' ∈ s) : parseAddr s ≠ .goPanic := by
  obtain ⟨a, b, hab, ha⟩ := mem_split_first ':' s h
  subst hab
  have hf := SplitN_two ':' a b ha
  simp only [parseAddr, hf, List.getElem?_cons_zero, List.getElem?_cons_succ]
  split_ifs with h1 h2
  · simp
  · simp
  · by_cases hb : ':' ∈ b
    · obtain ⟨c, d, hcd, hc⟩ := mem_split_first ':' b hb
      subst hcd
      have hg := SplitN_two ':' c d hc
      simp only [hg, List.getElem?_cons_zero, List.getElem?_cons_succ]
      cases hp : portsLoop c (SplitN d ',' (-1)) [] with
      | err e => simp
      | goPanic => exact absurd hp (portsLoop_no_panic c _ [])
      | ok addrs => simp
    · exact absurd (by rw [SplitN_two_absent ':' b hb]; rfl) h2

/-- C11 (the code at the failing input): on the inputs `tcp` and the empty string, which
hold no colon, `parseAddr` returns neither a descriptor nor an error: `fields` has one
element and `fields[1]` fails with an index out of range. -/
theorem parseAddr_panics_without_colon :
    SplitN "tcp".toList ':' 2 = ["tcp".toList] ∧
    parseAddr "tcp".toList = .goPanic ∧
    SplitN [] ':' 2 = [[]] ∧
    parseAddr [] = .goPanic := by
  refine ⟨by decide, by decide, by decide, by decide⟩

end Forkproxy
